import Mathlib

/-!
# StatsPusher: the event synchronisation dispatcher

A shallow embedding of `core/services/synchronization/stats_pusher.go`.

The Go code talks to four collaborators: the web-socket client (`Send`,
`Receive`, `Start`, `Close`), the ORM (`AllSyncEvents`, `DB.Delete`), the clock
raced against the context (`select`), and the backoff counter.  The calls of
`Action` are appended to a history (`StatsPusher.log`); what a collaborator
answers is an arbitrary function of the history so far (`World`), so a theorem
quantified over all `World`s holds for every behaviour of the transport, the
queue and the scheduler.  The queue is shared with the write path: the events
that the capture hook has saved meanwhile are in the table when an enumeration
reads it, and the enumeration itself can fail.

`pollEvents` and `eventLoop` are functions with fuel, `none` standing for a
loop that has not returned yet.  `Start`, `Close` and the goroutine are put
together in `Process`, where the goroutine advances by `loopStep` and a
schedule interleaves its steps with a call of `Close`.

Durations are natural numbers of nanoseconds, as in `time.Duration`.
-/

namespace Synchronization

/-! ## Data model -/

/-- One nanosecond-based second, `time.Second`. -/
def second : Nat := 1000000000

/-- The Go constant `time.Minute`. -/
def minute : Nat := 60 * second

/-- The record `models.SyncEvent`: the deletion key and the serialised payload. -/
structure SyncEvent where
  ID : Nat
  Body : String
deriving DecidableEq, Repr

/-- The wire response `type response struct { Status int }`. -/
structure response where
  Status : Int
deriving DecidableEq, Repr

/-- A call that the dispatcher issues to one of its collaborators. -/
inductive Action where
  /-- The call `eq.WSClient.Send(body)`. -/
  | Send (body : String)
  /-- The call `eq.WSClient.Receive()`. -/
  | Receive
  /-- The call `eq.ORM.DB.Delete(event)`, by the event's ID. -/
  | Delete (id : Nat)
  /-- A `select` left through `<-eq.clock.After(d)`. -/
  | After (d : Nat)
  /-- A `select` left through `<-parentCtx.Done()`. -/
  | Done
  /-- The call `eq.WSClient.Start()`. -/
  | Start
  /-- The call `eq.cancel()`. -/
  | Cancel
  /-- The call `Callback().Create().Remove(name)` or `Callback().Update().Remove(name)`. -/
  | Remove (name : String)
  /-- The call `eq.WSClient.Close()`. -/
  | Close
deriving DecidableEq, Repr

/-- The fields of `backoff.Backoff` that the dispatcher relies on: the attempt
counter and the two bounds. -/
structure Backoff where
  attempt : Nat
  Min : Nat
  Max : Nat
deriving DecidableEq, Repr

/-- The dispatcher `StatsPusher`.  `queue` is the table of sync events behind
`ORM` and `nextID` the ID that the table gives to the next event saved, `log`
the history of calls made to the transport, the database and the clock,
`cancel` tells whether the field `cancel` is non-nil. -/
structure StatsPusher where
  queue : List SyncEvent
  nextID : Nat
  Period : Nat
  cancel : Bool
  backoffSleeper : Backoff
  log : List Action
deriving DecidableEq, Repr

/-- The behaviour of the collaborators, each answer a function of the history
of calls made so far. -/
structure World where
  /-- Result of `WSClient.Receive()`: a message or a transport error. -/
  Receive : List Action → Except String String
  /-- Result of `json.Unmarshal(message, &response)`: an error, or the value of
  the member `status` when the message has one. -/
  Unmarshal : String → Except String (Option Int)
  /-- Error of `ORM.DB.Delete(event)`, `none` when the row was deleted. -/
  Delete : List Action → SyncEvent → Option String
  /-- Bodies of the events that the capture hook has saved since the table was
  last read, in order: they are in the table when the enumeration that starts
  with this history reads it. -/
  Arrivals : List Action → List String
  /-- Error of the query by which `ORM.AllSyncEvents` reads the table, `none`
  when the query succeeds. -/
  Find : List Action → Option String
  /-- Whether the `select` reached with this history is left through
  `<-parentCtx.Done()` rather than through the timer. -/
  Done : List Action → Bool
  /-- Error of `WSClient.Start()`, `none` when the connection is established. -/
  Start : List Action → Option String
  /-- Error of `WSClient.Close()`. -/
  Close : List Action → Option String

/-- Appends a call to the history. -/
def StatsPusher.record (eq : StatsPusher) (a : Action) : StatsPusher :=
  { eq with log := eq.log ++ [a] }

/-! ## Backoff -/

/-- Modelled from the spec: the package `github.com/jpillora/backoff` is not
among the sources.  The delay for an attempt is exponential in the attempt
(doubling, the package's factor when none is configured) and bounded by the
configured maximum. -/
def Backoff.ForAttempt (b : Backoff) (attempt : Nat) : Nat :=
  min (b.Min * 2 ^ attempt) b.Max

/-- Modelled from the spec: `Backoff.Duration` returns the delay of the current
attempt and advances the attempt counter. -/
def Backoff.Duration (b : Backoff) : Nat × Backoff :=
  (b.ForAttempt b.attempt, { b with attempt := b.attempt + 1 })

/-- Modelled from the spec: `Backoff.Reset` puts the delay back to the
minimum by clearing the attempt counter. -/
def Backoff.Reset (b : Backoff) : Backoff :=
  { b with attempt := 0 }

/-- Modelled from the spec: the queue assigns IDs monotonically.  The ID after
those of the events of `queue`. -/
def nextFree (queue : List SyncEvent) : Nat :=
  (queue.map SyncEvent.ID).foldr max 0 + 1

/-- Modelled from the spec: the events that the table holds for bodies saved
one after the other, the first under the ID `nextID`. -/
def saved (nextID : Nat) : List String → List SyncEvent
  | [] => []
  | body :: rest => { ID := nextID, Body := body } :: saved (nextID + 1) rest

/-- Modelled from the spec: the table after the write path has appended events
with these bodies. -/
def StatsPusher.enqueue (eq : StatsPusher) (bodies : List String) : StatsPusher :=
  { eq with
    queue := eq.queue ++ saved eq.nextID bodies
    nextID := eq.nextID + bodies.length }

/-- The dispatcher that `NewStatsPusher` returns, over a given queue: period of
five seconds, backoff between one second and five minutes, no cancel function,
nothing issued yet. -/
def NewStatsPusher (queue : List SyncEvent) : StatsPusher :=
  { queue := queue
    nextID := nextFree queue
    Period := 5 * second
    cancel := false
    backoffSleeper := { attempt := 0, Min := 1 * second, Max := 5 * minute }
    log := [] }

/-! ## Per-event synchronisation -/

/-- Modelled from the spec: `ORM.DB.Delete(event)` either fails and leaves the
table as it is, or removes the row with the event's ID. -/
def dbDelete (w : World) (eq : StatsPusher) (event : SyncEvent) :
    StatsPusher × Option String :=
  let err := w.Delete eq.log event
  let eq := eq.record (Action.Delete event.ID)
  match err with
  | some e => (eq, some e)
  | none => ({ eq with queue := eq.queue.filter (fun e => e.ID ≠ event.ID) }, none)

/-- The method `StatsPusher.syncEvent`: send, receive, validate, delete.  The
result is the dispatcher afterwards and the returned error (`none` for nil).
A response without a status leaves `response.Status` at its zero value. -/
def syncEvent (w : World) (eq : StatsPusher) (event : SyncEvent) :
    StatsPusher × Option String :=
  let eq := eq.record (Action.Send event.Body)
  let received := w.Receive eq.log
  let eq := eq.record Action.Receive
  match received with
  | Except.error err => (eq, some err)
  | Except.ok message =>
    match w.Unmarshal message with
    | Except.error err => (eq, some err)
    | Except.ok status =>
      let response : response := { Status := status.getD 0 }
      if response.Status ≠ 201 then
        (eq, some "event not created")
      else
        dbDelete w eq event

/-! ## The two loops -/

/-- The loop of the enumerator over a snapshot of the queue. -/
def forEachEvent (visit : StatsPusher → SyncEvent → StatsPusher × Option String) :
    List SyncEvent → StatsPusher → StatsPusher × Option String
  | [], eq => (eq, none)
  | event :: rest, eq =>
    match visit eq event with
    | (eq1, some err) => (eq1, some err)
    | (eq1, none) => forEachEvent visit rest eq1

/-- Modelled from the spec: the queue is shared with the write path.  The
dispatcher when an enumeration that starts at `eq` reads the table: the events
saved by the write path meanwhile are in it. -/
def arrived (w : World) (eq : StatsPusher) : StatsPusher :=
  eq.enqueue (w.Arrivals eq.log)

/-- Modelled from the spec: `ORM.AllSyncEvents` is not among the sources.  It
reads the table, which the dispatcher shares with the write path, and fails
when that query fails; otherwise it invokes the visitor once per currently
queued event, in queue order, stopping at and propagating the first error the
visitor returns. -/
def AllSyncEvents (w : World)
    (visit : StatsPusher → SyncEvent → StatsPusher × Option String)
    (eq : StatsPusher) : StatsPusher × Option String :=
  let eq := arrived w eq
  match w.Find eq.log with
  | some err => (eq, some err)
  | none => forEachEvent visit eq.queue eq

/-- One scan of the queue: the call of `AllSyncEvents` in `pollEvents` with the
closure that returns `eq.syncEvent(event)`. -/
def scan (w : World) (eq : StatsPusher) : StatsPusher × Option String :=
  AllSyncEvents w (syncEvent w) eq

/-- The method `StatsPusher.pollEvents`.  The `for` loop runs for at most
`fuel` ticks; `none` stands for a loop that has not returned by then. -/
def pollEvents (w : World) : Nat → StatsPusher → Option (StatsPusher × Option String)
  | 0, _ => none
  | fuel + 1, eq =>
    if w.Done eq.log then
      some (eq.record Action.Done, none)
    else
      match scan w (eq.record (Action.After eq.Period)) with
      | (eq1, some err) => some (eq1, some err)
      | (eq1, none) =>
        pollEvents w fuel { eq1 with backoffSleeper := eq1.backoffSleeper.Reset }

/-- What one turn of the `for` loop of `eventLoop` ends in. -/
inductive Turn where
  /-- The statement `return`. -/
  | returned (eq : StatsPusher)
  /-- The statement `continue`, after a backoff wait of `duration`. -/
  | continued (duration : Nat) (eq : StatsPusher)
deriving DecidableEq, Repr

/-- The body of the `for` loop of `eventLoop`: one pass of `pollEvents`, and
after a failed pass the backoff delay raced against cancellation. -/
def eventLoopTurn (w : World) (fuel : Nat) (eq : StatsPusher) : Option Turn :=
  match pollEvents w fuel eq with
  | none => none
  | some (eq1, none) => some (Turn.returned eq1)
  | some (eq1, some _) =>
    let duration := eq1.backoffSleeper.Duration.1
    let eq2 := { eq1 with backoffSleeper := eq1.backoffSleeper.Duration.2 }
    if w.Done eq2.log then
      some (Turn.returned (eq2.record Action.Done))
    else
      some (Turn.continued duration (eq2.record (Action.After duration)))

/-- The method `StatsPusher.eventLoop`: at most `turns` turns of the outer
loop, each pass given `fuel` ticks. -/
def eventLoop (w : World) (fuel : Nat) : Nat → StatsPusher → Option StatsPusher
  | 0, _ => none
  | turns + 1, eq =>
    match eventLoopTurn w fuel eq with
    | none => none
    | some (Turn.returned eq1) => some eq1
    | some (Turn.continued _ eq1) => eventLoop w fuel turns eq1

/-! ## The capture hook -/

/-- A job run, `models.JobRun`, as far as the hook is concerned: the value it
hands to the presenter. -/
structure JobRun where
  ID : String
deriving DecidableEq, Repr

/-- The dynamic type of `scope.Value`. -/
inductive ScopeValue where
  /-- A `*models.JobRun`. -/
  | JobRun (run : JobRun)
  /-- A value of any other type. -/
  | Other
deriving DecidableEq, Repr

/-- The scope `gorm.Scope` of a write, as far as the hook uses it: the error of
the write so far, the table, the value written, and the records handed to
`scope.DB().Save`, in order. -/
structure Scope where
  Error : Option String
  TableName : String
  Value : ScopeValue
  saves : List SyncEvent
deriving DecidableEq, Repr

/-- The collaborators of the hook: `json.Marshal` of the presenter of a job
run, and the error of `scope.DB().Save(&event)`. -/
structure Capture where
  Marshal : JobRun → Except String String
  Save : List SyncEvent → SyncEvent → Option String

/-- The method `Scope.HasError` of gorm: the write has an error. -/
def Scope.HasError (scope : Scope) : Bool :=
  scope.Error.isSome

/-- The method `Scope.Err` of gorm: a non-nil error is added to the write, nil
is ignored. -/
def Scope.Err (scope : Scope) (err : Option String) : Scope :=
  match err with
  | none => scope
  | some e =>
    match scope.Error with
    | none => { scope with Error := some e }
    | some old => { scope with Error := some (old ++ "; " ++ e) }

/-- The callback `createSyncEvent`. -/
def createSyncEvent (c : Capture) (scope : Scope) : Scope :=
  if scope.HasError then
    scope
  else if scope.TableName = "job_runs" then
    match scope.Value with
    | ScopeValue.Other => scope
    | ScopeValue.JobRun run =>
      match c.Marshal run with
      | Except.error err => scope.Err (some err)
      | Except.ok bodyBytes =>
        let event : SyncEvent := { ID := 0, Body := bodyBytes }
        let err := c.Save scope.saves event
        let scope := { scope with saves := scope.saves ++ [event] }
        scope.Err err
  else
    scope

/-! ## Start and Close -/

/-- The constant `createCallbackName`. -/
def createCallbackName : String := "sync:run_after_create"

/-- The constant `updateCallbackName`. -/
def updateCallbackName : String := "sync:run_after_update"

/-- Where the goroutine that runs `eventLoop` stands. -/
inductive Loop where
  /-- At the `select` of `pollEvents`. -/
  | pollWait
  /-- Inside `AllSyncEvents`, with these events still to visit. -/
  | scanning (rest : List SyncEvent)
  /-- At the `select` of `eventLoop`, waiting for `duration`. -/
  | backoffWait (duration : Nat)
  /-- After `return`. -/
  | returned
deriving DecidableEq, Repr

/-- The dispatcher together with the context that `Start` creates and the
goroutine that `Start` launches (`none` while it is not launched). -/
structure Process where
  eq : StatsPusher
  ctxDone : Bool
  loop : Option Loop
deriving DecidableEq, Repr

/-- The method `StatsPusher.Start`.  The goroutine it launches begins at the
`select` of `pollEvents`. -/
def Start (w : World) (p : Process) : Process × Option String :=
  let err := w.Start p.eq.log
  let p := { p with eq := p.eq.record Action.Start }
  match err with
  | some e => (p, some e)
  | none =>
    ({ p with eq := { p.eq with cancel := true }, ctxDone := false, loop := some Loop.pollWait },
      none)

/-- The method `StatsPusher.Close`: cancel when the cancel function is set,
remove the two callbacks, close the transport.  It touches neither the queue
nor the goroutine. -/
def Close (w : World) (p : Process) : Process × Option String :=
  let p := if p.eq.cancel then
      { p with eq := p.eq.record Action.Cancel, ctxDone := true }
    else p
  let p := { p with eq := p.eq.record (Action.Remove createCallbackName) }
  let p := { p with eq := p.eq.record (Action.Remove updateCallbackName) }
  let err := w.Close p.eq.log
  ({ p with eq := p.eq.record Action.Close }, err)

/-- One step of the goroutine: leaving a `select` (and, through the timer,
reading the table), or one visit of the enumerator, or the end of a scan.  A `select` is left through
`<-parentCtx.Done()` only when the context is cancelled; `timer` tells whether
the timer is then taken all the same, as it may when both are ready. -/
def loopStep (w : World) (timer : Bool) (p : Process) : Process :=
  match p.loop with
  | none => p
  | some Loop.returned => p
  | some Loop.pollWait =>
    if p.ctxDone && !timer then
      { p with eq := p.eq.record Action.Done, loop := some Loop.returned }
    else
      let eq1 := arrived w (p.eq.record (Action.After p.eq.Period))
      match w.Find eq1.log with
      | some _ =>
        { p with
          eq := { eq1 with backoffSleeper := eq1.backoffSleeper.Duration.2 }
          loop := some (Loop.backoffWait eq1.backoffSleeper.Duration.1) }
      | none => { p with eq := eq1, loop := some (Loop.scanning eq1.queue) }
  | some (Loop.scanning []) =>
    { p with
      eq := { p.eq with backoffSleeper := p.eq.backoffSleeper.Reset }
      loop := some Loop.pollWait }
  | some (Loop.scanning (event :: rest)) =>
    match syncEvent w p.eq event with
    | (eq1, none) => { p with eq := eq1, loop := some (Loop.scanning rest) }
    | (eq1, some _) =>
      { p with
        eq := { eq1 with backoffSleeper := eq1.backoffSleeper.Duration.2 }
        loop := some (Loop.backoffWait eq1.backoffSleeper.Duration.1) }
  | some (Loop.backoffWait duration) =>
    if p.ctxDone && !timer then
      { p with eq := p.eq.record Action.Done, loop := some Loop.returned }
    else
      { p with eq := p.eq.record (Action.After duration), loop := some Loop.pollWait }

/-- What runs next: a step of the goroutine, or a call of `Close` by the
owner of the dispatcher. -/
inductive Sched where
  /-- The goroutine takes a step. -/
  | loop (timer : Bool)
  /-- The owner calls `Close`, which runs to its return. -/
  | close
deriving DecidableEq, Repr

/-- The process after the steps of a schedule. -/
def runSchedule (w : World) : List Sched → Process → Process
  | [], p => p
  | Sched.loop timer :: rest, p => runSchedule w rest (loopStep w timer p)
  | Sched.close :: rest, p => runSchedule w rest (Close w p).1

/-! ## Vocabulary of the statements -/

/-- The transport answers the event sent from `eq` with a message that parses
and carries status 201. -/
def Accepted (w : World) (eq : StatsPusher) (event : SyncEvent) : Prop :=
  ∃ message, w.Receive (eq.log ++ [Action.Send event.Body]) = Except.ok message ∧
    w.Unmarshal message = Except.ok (some 201)

/-- The delete issued for the event after its send and receive from `eq`
succeeds. -/
def DeleteSucceeds (w : World) (eq : StatsPusher) (event : SyncEvent) : Prop :=
  w.Delete (eq.log ++ [Action.Send event.Body, Action.Receive]) event = none

/-- The response to the event sent from `eq` arrives and is not an
acceptance: it does not parse, or has no status, or a status other than 201. -/
def Rejected (w : World) (eq : StatsPusher) (event : SyncEvent) : Prop :=
  ∃ message, w.Receive (eq.log ++ [Action.Send event.Body]) = Except.ok message ∧
    w.Unmarshal message ≠ Except.ok (some 201)

/-- The receive for the event sent from `eq` fails with a transport error. -/
def ReceiveFails (w : World) (eq : StatsPusher) (event : SyncEvent) (err : String) : Prop :=
  w.Receive (eq.log ++ [Action.Send event.Body]) = Except.error err

/-- During a scan that has come to `eq`, the events of `earlier` are
synchronised with nil results one after the other, and `P` holds of the
dispatcher when the event after them is reached. -/
def Reaches (w : World) (P : StatsPusher → Prop) : StatsPusher → List SyncEvent → Prop
  | eq, [] => P eq
  | eq, e :: rest => (syncEvent w eq e).2 = none ∧ Reaches w P (syncEvent w eq e).1 rest

/-- In the scan from `eq`, `event` is reached after `earlier` and is the first
event whose syncEvent returns an error, `err`. -/
def FirstFailure (w : World) (eq : StatsPusher) (earlier : List SyncEvent)
    (event : SyncEvent) (err : String) : Prop :=
  Reaches w (fun s => (syncEvent w s event).2 = some err) eq earlier

/-- In the scan from `eq`, `event` is reached after `earlier` and answered with
status 201. -/
def AcceptedAfter (w : World) (eq : StatsPusher) (earlier : List SyncEvent)
    (event : SyncEvent) : Prop :=
  Reaches w (fun s => Accepted w s event) eq earlier

/-- In the scan from `eq`, `event` is reached after `earlier`, answered with
status 201, and its delete succeeds. -/
def AcceptedAndDeletedAfter (w : World) (eq : StatsPusher) (earlier : List SyncEvent)
    (event : SyncEvent) : Prop :=
  Reaches w (fun s => Accepted w s event ∧ DeleteSucceeds w s event) eq earlier

/-- In the scan from `eq`, `event` is reached after `earlier` and its response
is not an acceptance. -/
def RejectedAfter (w : World) (eq : StatsPusher) (earlier : List SyncEvent)
    (event : SyncEvent) : Prop :=
  Reaches w (fun s => Rejected w s event) eq earlier

/-- In the scan from `eq`, `event` is reached after `earlier` and its receive
fails with the transport error `err`. -/
def ReceiveFailsAfter (w : World) (eq : StatsPusher) (earlier : List SyncEvent)
    (event : SyncEvent) (err : String) : Prop :=
  Reaches w (fun s => ReceiveFails w s event err) eq earlier

/-- The calls made for events that are sent, acknowledged and deleted in turn. -/
def syncedCalls : List SyncEvent → List Action
  | [] => []
  | e :: rest =>
    Action.Send e.Body :: Action.Receive :: Action.Delete e.ID :: syncedCalls rest

/-- The dispatcher `eq` once the events of `earlier` have been sent,
acknowledged and deleted in turn. -/
def reached (eq : StatsPusher) (earlier : List SyncEvent) : StatsPusher :=
  { eq with
    queue := eq.queue.filter (fun e => e.ID ∉ earlier.map SyncEvent.ID)
    log := eq.log ++ syncedCalls earlier }

/-- The dispatcher at which the visits of the scan of `pollEvents` from `eq`
start: the timer has fired and the table has been read. -/
def scanStart (w : World) (eq : StatsPusher) : StatsPusher :=
  arrived w (eq.record (Action.After eq.Period))

/-- No queued event has the ID `k`, and the table has passed `k`: it does not
assign it again. -/
def Gone (k : Nat) (eq : StatsPusher) : Prop :=
  (∀ e ∈ eq.queue, e.ID ≠ k) ∧ k < eq.nextID

/-- The IDs of the queue are distinct and below the next ID of the table. -/
def DistinctIDs (eq : StatsPusher) : Prop :=
  (eq.queue.map SyncEvent.ID).Nodup ∧ ∀ e ∈ eq.queue, e.ID < eq.nextID

/-- A pass of eventLoop started at `eq` that fails on `event`: the timer wins
the wait of pollEvents, the table is read, syncEvent of `event` is the first to
fail in the scan, the backoff timer fires, and the next pass starts at `next`.
One tick of fuel is what a pass that fails at its first scan takes. -/
def FailedPass (w : World) (event : SyncEvent) (eq next : StatsPusher) : Prop :=
  (w.Find (scanStart w eq).log = none ∧
    ∃ earlier later err, (scanStart w eq).queue = earlier ++ event :: later ∧
      FirstFailure w (scanStart w eq) earlier event err) ∧
  ∃ d, eventLoopTurn w 1 eq = some (Turn.continued d next)

/-- A pass of eventLoop started at `eq` that accepts `event`: the timer wins the
wait of pollEvents, the table is read, and in the scan `event` is reached,
answered with status 201 and deleted. -/
def AcceptingPass (w : World) (event : SyncEvent) (eq : StatsPusher) : Prop :=
  w.Done eq.log = false ∧ w.Find (scanStart w eq).log = none ∧
  ∃ earlier later, (scanStart w eq).queue = earlier ++ event :: later ∧
    AcceptedAndDeletedAfter w (scanStart w eq) earlier event

/-- The backoff delays of the first `n` turns of eventLoop from `eq` when each
of them is a pass that fails at its first scan (one tick of fuel) followed by a
backoff wait that the timer wins; `none` when the run from `eq` does not start
so. -/
def consecutiveDelays (w : World) : Nat → StatsPusher → Option (List Nat)
  | 0, _ => some []
  | n + 1, eq =>
    match eventLoopTurn w 1 eq with
    | some (Turn.continued d next) => (consecutiveDelays w n next).map (fun ds => d :: ds)
    | _ => none

/-- A call made on behalf of one event: send, receive or delete. -/
def Action.isSync : Action → Bool
  | Action.Send _ => true
  | Action.Receive => true
  | Action.Delete _ => true
  | _ => false

/-- The payloads handed to `WSClient.Send` in a history, in order. -/
def sends : List Action → List String
  | [] => []
  | Action.Send body :: rest => body :: sends rest
  | _ :: rest => sends rest

/-! ## Concrete scenarios -/

/-- The message `{"status":201}`. -/
def created : String := "\x7b\"status\":201\x7d"

/-- The message `{"status":400}`. -/
def badRequest : String := "\x7b\"status\":400\x7d"

/-- A decoder that knows the two messages above, the empty object and nothing
else. -/
def decode (message : String) : Except String (Option Int) :=
  if message = created then Except.ok (some 201)
  else if message = badRequest then Except.ok (some 400)
  else if message = "\x7b\x7d" then Except.ok none
  else Except.error "invalid character"

/-- Three queued events. -/
def eventA : SyncEvent := { ID := 1, Body := "A" }

/-- The second queued event. -/
def eventB : SyncEvent := { ID := 2, Body := "B" }

/-- The third queued event. -/
def eventC : SyncEvent := { ID := 3, Body := "C" }

/-- A collector that acknowledges payload `A` and drops the connection on any
other payload; the database and the transport's start and close work, and
nothing is cancelled. -/
def worldOnlyA : World :=
  { Receive := fun log =>
      if log.getLast? = some (Action.Send "A") then Except.ok created
      else Except.error "connection lost"
    Unmarshal := decode
    Delete := fun _ _ => none
    Arrivals := fun _ => []
    Find := fun _ => none
    Done := fun _ => false
    Start := fun _ => none
    Close := fun _ => none }

/-- A collector that acknowledges every payload, over a database whose delete
always fails. -/
def worldDeleteFails : World :=
  { Receive := fun _ => Except.ok created
    Unmarshal := decode
    Delete := fun _ _ => some "database is locked"
    Arrivals := fun _ => []
    Find := fun _ => none
    Done := fun _ => false
    Start := fun _ => none
    Close := fun _ => none }

/-- A transport whose first receive fails and whose later receives carry an
acknowledgement, and a context that is cancelled once the event with ID 1 has
been deleted. -/
def worldRetryThenCancelled : World :=
  { Receive := fun log =>
      if Action.Receive ∈ log then Except.ok created else Except.error "connection lost"
    Unmarshal := decode
    Delete := fun _ _ => none
    Arrivals := fun _ => []
    Find := fun _ => none
    Done := fun log => decide (Action.Delete 1 ∈ log)
    Start := fun _ => none
    Close := fun _ => none }

/-- A transport whose first receive fails and that afterwards acknowledges
payload `A` only; once the event with ID 1 is deleted, the write path saves an
event with payload `B`. -/
def worldArrival : World :=
  { Receive := fun log =>
      if Action.Receive ∈ log ∧ log.getLast? = some (Action.Send "A") then
        Except.ok created
      else Except.error "connection lost"
    Unmarshal := decode
    Delete := fun _ _ => none
    Arrivals := fun log =>
      if Action.Delete 1 ∈ log ∧ Action.Send "B" ∉ log then ["B"] else []
    Find := fun _ => none
    Done := fun _ => false
    Start := fun _ => none
    Close := fun _ => none }

/-- A collector that acknowledges every payload, over a table that cannot be
read any more once the event with ID 1 has been deleted. -/
def worldFindFails : World :=
  { Receive := fun _ => Except.ok created
    Unmarshal := decode
    Delete := fun _ _ => none
    Arrivals := fun _ => []
    Find := fun log =>
      if Action.Delete 1 ∈ log then some "sql: database is closed" else none
    Done := fun _ => false
    Start := fun _ => none
    Close := fun _ => none }

/-- A collector that is down: every receive fails. -/
def worldDown : World :=
  { Receive := fun _ => Except.error "connection lost"
    Unmarshal := decode
    Delete := fun _ _ => none
    Arrivals := fun _ => []
    Find := fun _ => none
    Done := fun _ => false
    Start := fun _ => none
    Close := fun _ => none }

/-- A collector that acknowledges payload `A` and answers any other payload
with status 400. -/
def worldRejects : World :=
  { Receive := fun log =>
      if log.getLast? = some (Action.Send "A") then Except.ok created
      else Except.ok badRequest
    Unmarshal := decode
    Delete := fun _ _ => none
    Arrivals := fun _ => []
    Find := fun _ => none
    Done := fun _ => false
    Start := fun _ => none
    Close := fun _ => none }

/-- A collector that is down, and a context that is cancelled once a receive
has been issued. -/
def worldDownThenCancelled : World :=
  { Receive := fun _ => Except.error "connection lost"
    Unmarshal := decode
    Delete := fun _ _ => none
    Arrivals := fun _ => []
    Find := fun _ => none
    Done := fun log => decide (Action.Receive ∈ log)
    Start := fun _ => none
    Close := fun _ => none }

/-- A collector that acknowledges every payload until the transport is closed;
after `WSClient.Close()` every receive fails. -/
def worldUntilClosed : World :=
  { Receive := fun log =>
      if Action.Close ∈ log then Except.error "use of closed network connection"
      else Except.ok created
    Unmarshal := decode
    Delete := fun _ _ => none
    Arrivals := fun _ => []
    Find := fun _ => none
    Done := fun _ => false
    Start := fun _ => none
    Close := fun _ => none }

/-- The dispatcher of `NewStatsPusher [eventA]` after one pass that failed on
the receive and the backoff wait of one second that followed. -/
def afterOneFailure : StatsPusher :=
  { queue := [eventA]
    nextID := 2
    Period := 5 * second
    cancel := false
    backoffSleeper := { attempt := 1, Min := 1 * second, Max := 5 * minute }
    log := [Action.After (5 * second), Action.Send "A", Action.Receive,
      Action.After (1 * second)] }

/-- The dispatcher `afterOneFailure` after the scan of its next pass, in which
A is acknowledged and deleted. -/
def acceptedAfterRetry : StatsPusher :=
  { queue := []
    nextID := 2
    Period := 5 * second
    cancel := false
    backoffSleeper := { attempt := 1, Min := 1 * second, Max := 5 * minute }
    log := [Action.After (5 * second), Action.Send "A", Action.Receive,
      Action.After (1 * second), Action.After (5 * second), Action.Send "A", Action.Receive,
      Action.Delete 1] }

/-- A transport whose close fails. -/
def worldCloseFails : World :=
  { Receive := fun _ => Except.ok created
    Unmarshal := decode
    Delete := fun _ _ => none
    Arrivals := fun _ => []
    Find := fun _ => none
    Done := fun _ => false
    Start := fun _ => none
    Close := fun _ => some "websocket: close sent" }

/-- A collector that cannot be reached: the transport's start fails. -/
def worldUnreachable : World :=
  { Receive := fun _ => Except.error "connection lost"
    Unmarshal := decode
    Delete := fun _ _ => none
    Arrivals := fun _ => []
    Find := fun _ => none
    Done := fun _ => false
    Start := fun _ => some "dial tcp: connection refused"
    Close := fun _ => none }

/-- The dispatcher `acceptedAfterRetry` after the reset and a wait that
cancellation wins. -/
def cancelledAfterAccept : StatsPusher :=
  { acceptedAfterRetry with
    backoffSleeper := { attempt := 0, Min := 1 * second, Max := 5 * minute }
    log := acceptedAfterRetry.log ++ [Action.Done] }

/-- The dispatcher `acceptedAfterRetry` after the reset and a second scan, in
which an event with payload `B` has arrived and its receive fails. -/
def failedOnArrival : StatsPusher :=
  { queue := [eventB]
    nextID := 3
    Period := 5 * second
    cancel := false
    backoffSleeper := { attempt := 0, Min := 1 * second, Max := 5 * minute }
    log := acceptedAfterRetry.log ++
      [Action.After (5 * second), Action.Send "B", Action.Receive] }

/-- The dispatcher `failedOnArrival` after the backoff wait of one second. -/
def waitingAfterArrival : StatsPusher :=
  { failedOnArrival with
    backoffSleeper := { attempt := 1, Min := 1 * second, Max := 5 * minute }
    log := failedOnArrival.log ++ [Action.After (1 * second)] }

/-- The dispatcher `afterOneFailure` with B queued behind A. -/
def afterOneFailureAB : StatsPusher :=
  { afterOneFailure with queue := [eventA, eventB], nextID := 3 }

/-- The dispatcher `afterOneFailureAB` after a scan that deleted A and stopped
at B. -/
def stoppedAtBAgain : StatsPusher :=
  { afterOneFailureAB with
    queue := [eventB]
    log := afterOneFailureAB.log ++
      [Action.After (5 * second), Action.Send "A", Action.Receive, Action.Delete 1,
        Action.Send "B", Action.Receive] }

/-- The dispatcher `stoppedAtBAgain` after the backoff wait of two seconds. -/
def waitingTwoSeconds : StatsPusher :=
  { stoppedAtBAgain with
    backoffSleeper := { attempt := 2, Min := 1 * second, Max := 5 * minute }
    log := stoppedAtBAgain.log ++ [Action.After (2 * second)] }

/-- A process whose dispatcher is new, over the queue A, B, and whose `Start`
has not been called. -/
def freshProcess : Process :=
  { eq := NewStatsPusher [eventA, eventB], ctxDone := false, loop := none }

/-- A presenter that cannot be serialised for the job run `broken`. -/
def captureUnlessBroken : Capture :=
  { Marshal := fun run =>
      if run.ID = "broken" then Except.error "json: unsupported value"
      else Except.ok run.ID
    Save := fun _ _ => none }

/-- The scope of a write of a job run. -/
def jobRunScope (id : String) : Scope :=
  { Error := none, TableName := "job_runs", Value := ScopeValue.JobRun { ID := id },
    saves := [] }

/-! ## Theorems -/

/-! ### Effects of one syncEvent -/

theorem syncEvent_nil_iff (w : World) (eq : StatsPusher) (event : SyncEvent) :
    (syncEvent w eq event).2 = none ↔ Accepted w eq event ∧ DeleteSucceeds w eq event := by
  unfold syncEvent dbDelete Accepted DeleteSucceeds
  simp only [StatsPusher.record, List.append_assoc, List.singleton_append]
  cases hr : w.Receive (eq.log ++ [Action.Send event.Body]) with
  | error err => simp
  | ok message =>
    cases hu : w.Unmarshal message with
    | error err => simp [hu]
    | ok status =>
      cases status with
      | none => simp [hu]
      | some n =>
        by_cases hn : n = 201
        · subst hn
          cases hd : w.Delete (eq.log ++ [Action.Send event.Body, Action.Receive]) event <;>
            simp [hu, hd]
        · simp [hu, hn]

theorem syncEvent_queue (w : World) (eq : StatsPusher) (event : SyncEvent) :
    ((syncEvent w eq event).2 = none →
      (syncEvent w eq event).1.queue = eq.queue.filter (fun e => e.ID ≠ event.ID)) ∧
    ((syncEvent w eq event).2 ≠ none → (syncEvent w eq event).1.queue = eq.queue) := by
  unfold syncEvent dbDelete
  simp only [StatsPusher.record, List.append_assoc, List.singleton_append]
  cases hr : w.Receive (eq.log ++ [Action.Send event.Body]) with
  | error err => simp
  | ok message =>
    cases hu : w.Unmarshal message with
    | error err => simp [hu]
    | ok status =>
      by_cases hn : status.getD 0 = 201
      · cases hd : w.Delete (eq.log ++ [Action.Send event.Body, Action.Receive]) event <;>
          simp [hu, hn, hd]
      · simp [hu, hn]

theorem sends_append (l1 l2 : List Action) : sends (l1 ++ l2) = sends l1 ++ sends l2 := by
  induction l1 with
  | nil => rfl
  | cons a l ih => cases a <;> simp [sends, ih]

theorem syncEvent_log (w : World) (eq : StatsPusher) (event : SyncEvent) :
    ∃ tail, (syncEvent w eq event).1.log
        = eq.log ++ Action.Send event.Body :: Action.Receive :: tail ∧
      (tail = [] ∨ tail = [Action.Delete event.ID]) := by
  unfold syncEvent dbDelete
  simp only [StatsPusher.record, List.append_assoc, List.singleton_append]
  cases hr : w.Receive (eq.log ++ [Action.Send event.Body]) with
  | error err => exact ⟨[], by simp⟩
  | ok message =>
    cases hu : w.Unmarshal message with
    | error err => exact ⟨[], by simp [hu]⟩
    | ok status =>
      by_cases hn : status.getD 0 = 201
      · cases hd : w.Delete (eq.log ++ [Action.Send event.Body, Action.Receive]) event <;>
          exact ⟨[Action.Delete event.ID], by simp [hu, hn, hd]⟩
      · exact ⟨[], by simp [hu, hn]⟩

theorem syncEvent_frame (w : World) (eq : StatsPusher) (event : SyncEvent) :
    (syncEvent w eq event).1.Period = eq.Period ∧
    (syncEvent w eq event).1.cancel = eq.cancel ∧
    (syncEvent w eq event).1.backoffSleeper = eq.backoffSleeper := by
  unfold syncEvent dbDelete
  simp only [StatsPusher.record, List.append_assoc, List.singleton_append]
  cases hr : w.Receive (eq.log ++ [Action.Send event.Body]) with
  | error err => simp
  | ok message =>
    cases hu : w.Unmarshal message with
    | error err => simp [hu]
    | ok status =>
      by_cases hn : status.getD 0 = 201
      · cases hd : w.Delete (eq.log ++ [Action.Send event.Body, Action.Receive]) event <;>
          simp [hu, hn, hd]
      · simp [hu, hn]

theorem syncEvent_nextID (w : World) (eq : StatsPusher) (event : SyncEvent) :
    (syncEvent w eq event).1.nextID = eq.nextID := by
  unfold syncEvent dbDelete
  simp only [StatsPusher.record, List.append_assoc, List.singleton_append]
  cases hr : w.Receive (eq.log ++ [Action.Send event.Body]) with
  | error err => simp
  | ok message =>
    cases hu : w.Unmarshal message with
    | error err => simp [hu]
    | ok status =>
      by_cases hn : status.getD 0 = 201
      · cases hd : w.Delete (eq.log ++ [Action.Send event.Body, Action.Receive]) event <;>
          simp [hu, hn, hd]
      · simp [hu, hn]

theorem syncEvent_queue_nil (w : World) (eq : StatsPusher) (event : SyncEvent)
    (h : (syncEvent w eq event).2 = none) :
    (syncEvent w eq event).1.queue = eq.queue.filter (fun e => e.ID ≠ event.ID) :=
  (syncEvent_queue w eq event).1 h

theorem syncEvent_queue_err (w : World) (eq : StatsPusher) (event : SyncEvent)
    (h : (syncEvent w eq event).2 ≠ none) :
    (syncEvent w eq event).1.queue = eq.queue :=
  (syncEvent_queue w eq event).2 h

/-! ### Effects of one scan -/

theorem forEachEvent_cons_err (visit : StatsPusher → SyncEvent → StatsPusher × Option String)
    (e : SyncEvent) (rest : List SyncEvent) (eq : StatsPusher) (err : String)
    (h : (visit eq e).2 = some err) :
    forEachEvent visit (e :: rest) eq = ((visit eq e).1, some err) := by
  simp only [forEachEvent]
  cases hv : visit eq e with
  | mk s r =>
    rw [hv] at h
    cases r <;> simp_all

theorem forEachEvent_cons_nil (visit : StatsPusher → SyncEvent → StatsPusher × Option String)
    (e : SyncEvent) (rest : List SyncEvent) (eq : StatsPusher)
    (h : (visit eq e).2 = none) :
    forEachEvent visit (e :: rest) eq = forEachEvent visit rest (visit eq e).1 := by
  simp only [forEachEvent]
  cases hv : visit eq e with
  | mk s r =>
    rw [hv] at h
    cases r <;> simp_all

theorem sends_syncEvent (w : World) (eq : StatsPusher) (event : SyncEvent) :
    ∃ new, (syncEvent w eq event).1.log = eq.log ++ new ∧ sends new = [event.Body] := by
  obtain ⟨tail, hlog, htail⟩ := syncEvent_log w eq event
  refine ⟨Action.Send event.Body :: Action.Receive :: tail, hlog, ?_⟩
  rcases htail with h | h <;> simp [h, sends]

theorem syncEvent_nil_state (w : World) (eq : StatsPusher) (event : SyncEvent)
    (h : (syncEvent w eq event).2 = none) :
    (syncEvent w eq event).1 = reached eq [event] := by
  revert h
  unfold syncEvent dbDelete reached
  simp only [StatsPusher.record, List.append_assoc, List.singleton_append, syncedCalls]
  cases hr : w.Receive (eq.log ++ [Action.Send event.Body]) with
  | error err => simp
  | ok message =>
    cases hu : w.Unmarshal message with
    | error err => simp [hu]
    | ok status =>
      by_cases hn : status.getD 0 = 201
      · cases hd : w.Delete (eq.log ++ [Action.Send event.Body, Action.Receive]) event <;>
          simp [hu, hn, hd]
      · simp [hu, hn]

theorem reached_nil (eq : StatsPusher) : reached eq [] = eq := by
  cases eq
  simp [reached, syncedCalls]

theorem reached_cons (eq : StatsPusher) (e : SyncEvent) (rest : List SyncEvent) :
    reached (reached eq [e]) rest = reached eq (e :: rest) := by
  simp only [reached, syncedCalls, List.filter_filter, List.map_cons, List.map_nil,
    List.append_assoc, List.cons_append, List.nil_append, StatsPusher.mk.injEq, true_and,
    and_true]
  congr 1
  funext x
  simp only [List.mem_cons, List.not_mem_nil, or_false, not_or, Bool.decide_and]
  rw [Bool.and_comm]

theorem sends_syncedCalls (events : List SyncEvent) :
    sends (syncedCalls events) = events.map SyncEvent.Body := by
  induction events with
  | nil => rfl
  | cons e rest ih => simp [syncedCalls, sends, ih]

theorem forEachEvent_reaches (w : World) (P : StatsPusher → Prop) :
    ∀ (earlier : List SyncEvent) (eq : StatsPusher),
      Reaches w P eq earlier →
      P (reached eq earlier) ∧
      ∀ rest, forEachEvent (syncEvent w) (earlier ++ rest) eq
        = forEachEvent (syncEvent w) rest (reached eq earlier) := by
  intro earlier
  induction earlier with
  | nil =>
    intro eq h
    simp only [Reaches] at h
    rw [reached_nil]
    exact ⟨h, fun _ => rfl⟩
  | cons e rest ih =>
    intro eq h
    simp only [Reaches] at h
    obtain ⟨h1, h2⟩ := h
    rw [syncEvent_nil_state w eq e h1] at h2
    obtain ⟨hP, hrun⟩ := ih (reached eq [e]) h2
    rw [reached_cons] at hP hrun
    refine ⟨hP, fun tail => ?_⟩
    rw [List.cons_append, forEachEvent_cons_nil (syncEvent w) e _ eq h1,
      syncEvent_nil_state w eq e h1]
    exact hrun tail

theorem forEachEvent_firstFailure (w : World) (earlier : List SyncEvent) (eq : StatsPusher)
    (event : SyncEvent) (later : List SyncEvent) (err : String)
    (h : FirstFailure w eq earlier event err) :
    ∃ eq1 new, forEachEvent (syncEvent w) (earlier ++ event :: later) eq = (eq1, some err) ∧
      eq1.queue = eq.queue.filter (fun e => e.ID ∉ earlier.map SyncEvent.ID) ∧
      eq1.log = eq.log ++ new ∧
      sends new = (earlier ++ [event]).map SyncEvent.Body ∧
      eq1.Period = eq.Period ∧ eq1.cancel = eq.cancel ∧
      eq1.backoffSleeper = eq.backoffSleeper := by
  obtain ⟨hP, hrun⟩ := forEachEvent_reaches w _ earlier eq h
  obtain ⟨new, hlog, hs⟩ := sends_syncEvent w (reached eq earlier) event
  obtain ⟨hp, hc, hb⟩ := syncEvent_frame w (reached eq earlier) event
  refine ⟨(syncEvent w (reached eq earlier) event).1, syncedCalls earlier ++ new, ?_, ?_, ?_,
    ?_, hp, hc, hb⟩
  · rw [hrun, forEachEvent_cons_err (syncEvent w) event later _ err hP]
  · rw [syncEvent_queue_err w _ event (by simp [hP])]
    rfl
  · rw [hlog]
    simp [reached]
  · rw [sends_append, sends_syncedCalls, hs]
    simp

theorem filter_earlier (earlier rest : List SyncEvent)
    (h : ((earlier ++ rest).map SyncEvent.ID).Nodup) :
    (earlier ++ rest).filter (fun e => e.ID ∉ earlier.map SyncEvent.ID) = rest := by
  rw [List.map_append, List.nodup_append] at h
  obtain ⟨_, _, hdis⟩ := h
  rw [List.filter_append]
  have h1 : earlier.filter (fun e => e.ID ∉ earlier.map SyncEvent.ID) = [] := by
    rw [List.filter_eq_nil_iff]
    intro a ha
    simp only [decide_not, Bool.not_eq_true', decide_eq_false_iff_not, not_not]
    exact List.mem_map_of_mem _ ha
  have h2 : rest.filter (fun e => e.ID ∉ earlier.map SyncEvent.ID) = rest := by
    rw [List.filter_eq_self]
    intro a ha
    simp only [decide_not, Bool.not_eq_true', decide_eq_false_iff_not]
    intro hmem
    exact hdis hmem (List.mem_map_of_mem _ ha)
  rw [h1, h2, List.nil_append]

theorem syncEvent_log_nil (w : World) (eq : StatsPusher) (event : SyncEvent)
    (h : (syncEvent w eq event).2 = none) :
    (syncEvent w eq event).1.log
      = eq.log ++ [Action.Send event.Body, Action.Receive, Action.Delete event.ID] := by
  revert h
  unfold syncEvent dbDelete
  simp only [StatsPusher.record, List.append_assoc, List.singleton_append]
  cases hr : w.Receive (eq.log ++ [Action.Send event.Body]) with
  | error err => simp
  | ok message =>
    cases hu : w.Unmarshal message with
    | error err => simp [hu]
    | ok status =>
      by_cases hn : status.getD 0 = 201
      · cases hd : w.Delete (eq.log ++ [Action.Send event.Body, Action.Receive]) event <;>
          simp [hu, hn, hd]
      · simp [hu, hn]

theorem syncEvent_effects (w : World) (eq : StatsPusher) (event : SyncEvent) :
    ∃ new, (syncEvent w eq event).1.log = eq.log ++ new ∧
      (∀ a ∈ new, a.isSync = true) ∧
      (∀ i, new.count (Action.Delete i) ≤ [event.ID].count i) := by
  obtain ⟨tail, hlog, htail⟩ := syncEvent_log w eq event
  refine ⟨Action.Send event.Body :: Action.Receive :: tail, hlog, ?_, ?_⟩
  · rcases htail with h | h <;> simp [h, Action.isSync]
  · intro i
    rcases htail with h | h
    · simp [h]
    · by_cases hi : event.ID = i
      · simp [h, hi]
      · have hne : (Action.Delete event.ID == Action.Delete i) = false := by
          simp [hi]
        simp [h, List.count_cons, hne]

theorem forEachEvent_effects (w : World) :
    ∀ (events : List SyncEvent) (eq : StatsPusher),
      ∃ new, (forEachEvent (syncEvent w) events eq).1.log = eq.log ++ new ∧
        (∀ a ∈ new, a.isSync = true) ∧
        (∀ i, new.count (Action.Delete i) ≤ (events.map SyncEvent.ID).count i) ∧
        List.Sublist (forEachEvent (syncEvent w) events eq).1.queue eq.queue ∧
        (forEachEvent (syncEvent w) events eq).1.Period = eq.Period ∧
        (forEachEvent (syncEvent w) events eq).1.cancel = eq.cancel ∧
        (forEachEvent (syncEvent w) events eq).1.backoffSleeper = eq.backoffSleeper := by
  intro events
  induction events with
  | nil =>
    intro eq
    exact ⟨[], by simp [forEachEvent]⟩
  | cons e rest ih =>
    intro eq
    obtain ⟨new0, hlog0, hsync0, hcount0⟩ := syncEvent_effects w eq e
    obtain ⟨hp0, hc0, hb0⟩ := syncEvent_frame w eq e
    have hcount0le : ∀ i, new0.count (Action.Delete i)
        ≤ ((e :: rest).map SyncEvent.ID).count i := by
      intro i
      refine le_trans (hcount0 i) ?_
      simp only [List.map_cons]
      exact List.Sublist.count_le (by simp) i
    cases hres : (syncEvent w eq e).2 with
    | some err =>
      rw [forEachEvent_cons_err (syncEvent w) e rest eq err hres]
      refine ⟨new0, hlog0, hsync0, hcount0le, ?_, hp0, hc0, hb0⟩
      rw [syncEvent_queue_err w eq e (by simp [hres])]
    | none =>
      rw [forEachEvent_cons_nil (syncEvent w) e rest eq hres]
      obtain ⟨new, hlog, hsync, hcount, hsub, hp, hc, hb⟩ := ih (syncEvent w eq e).1
      refine ⟨new0 ++ new, ?_, ?_, ?_, ?_, hp.trans hp0, hc.trans hc0, hb.trans hb0⟩
      · rw [hlog, hlog0, List.append_assoc]
      · intro a ha
        rcases List.mem_append.1 ha with h | h
        · exact hsync0 a h
        · exact hsync a h
      · intro i
        have h1 := hcount0 i
        have h2 := hcount i
        simp only [List.count_append, List.map_cons, List.count_cons, List.count_nil] at h1 h2 ⊢
        omega
      · refine hsub.trans ?_
        rw [syncEvent_queue_nil w eq e hres]
        exact List.filter_sublist _

/-! ### Effects of the loops -/

theorem forEachEvent_nextID (w : World) :
    ∀ (events : List SyncEvent) (eq : StatsPusher),
      (forEachEvent (syncEvent w) events eq).1.nextID = eq.nextID := by
  intro events
  induction events with
  | nil => intro eq; rfl
  | cons e rest ih =>
    intro eq
    cases hres : (syncEvent w eq e).2 with
    | some err =>
      rw [forEachEvent_cons_err (syncEvent w) e rest eq err hres]
      exact syncEvent_nextID w eq e
    | none =>
      rw [forEachEvent_cons_nil (syncEvent w) e rest eq hres, ih]
      exact syncEvent_nextID w eq e

theorem saved_ids (n : Nat) (bodies : List String) :
    (saved n bodies).map SyncEvent.ID = List.range' n bodies.length := by
  induction bodies generalizing n with
  | nil => rfl
  | cons body rest ih => simp [saved, ih, List.range'_succ]

theorem saved_bound (n : Nat) (bodies : List String) :
    ∀ e ∈ saved n bodies, n ≤ e.ID ∧ e.ID < n + bodies.length := by
  intro e he
  have h : e.ID ∈ (saved n bodies).map SyncEvent.ID := List.mem_map_of_mem _ he
  rw [saved_ids, List.mem_range'_1] at h
  exact h

theorem distinctIDs_enqueue (eq : StatsPusher) (bodies : List String)
    (h : DistinctIDs eq) : DistinctIDs (eq.enqueue bodies) := by
  obtain ⟨hnd, hlt⟩ := h
  refine ⟨?_, ?_⟩
  · simp only [StatsPusher.enqueue, List.map_append]
    rw [List.nodup_append]
    refine ⟨hnd, ?_, ?_⟩
    · rw [saved_ids]
      exact List.nodup_range' _ _
    · intro i hi hi'
      obtain ⟨e, he, rfl⟩ := List.mem_map.1 hi
      rw [saved_ids, List.mem_range'_1] at hi'
      have := hlt e he
      omega
  · intro e he
    simp only [StatsPusher.enqueue, List.mem_append] at he ⊢
    rcases he with he | he
    · have := hlt e he
      omega
    · exact (saved_bound _ _ e he).2

theorem gone_enqueue (k : Nat) (eq : StatsPusher) (bodies : List String)
    (h : Gone k eq) : Gone k (eq.enqueue bodies) := by
  obtain ⟨hne, hlt⟩ := h
  refine ⟨?_, ?_⟩
  · intro e he
    simp only [StatsPusher.enqueue, List.mem_append] at he
    rcases he with he | he
    · exact hne e he
    · have := (saved_bound _ _ e he).1
      omega
  · simp only [StatsPusher.enqueue]
    omega

theorem scan_find_err (w : World) (eq : StatsPusher) (err : String)
    (h : w.Find (arrived w eq).log = some err) :
    scan w eq = (arrived w eq, some err) := by
  simp only [scan, AllSyncEvents, h]

theorem scan_find_ok (w : World) (eq : StatsPusher)
    (h : w.Find (arrived w eq).log = none) :
    scan w eq = forEachEvent (syncEvent w) (arrived w eq).queue (arrived w eq) := by
  simp only [scan, AllSyncEvents, h]

theorem scan_effects (w : World) (eq : StatsPusher) :
    ∃ new, (scan w eq).1.log = eq.log ++ new ∧
      (∀ a ∈ new, a.isSync = true) ∧
      (∀ i, Action.Delete i ∈ new → i ∈ (arrived w eq).queue.map SyncEvent.ID) ∧
      (∀ i, new.count (Action.Delete i) ≤ ((arrived w eq).queue.map SyncEvent.ID).count i) ∧
      List.Sublist (scan w eq).1.queue (arrived w eq).queue ∧
      (scan w eq).1.Period = eq.Period ∧
      (scan w eq).1.cancel = eq.cancel ∧
      (scan w eq).1.backoffSleeper = eq.backoffSleeper ∧
      (scan w eq).1.nextID = (arrived w eq).nextID := by
  cases hf : w.Find (arrived w eq).log with
  | some err =>
    rw [scan_find_err w eq err hf]
    exact ⟨[], by simp [arrived, StatsPusher.enqueue], by simp, by simp, by simp,
      List.Sublist.refl _, rfl, rfl, rfl, rfl⟩
  | none =>
    rw [scan_find_ok w eq hf]
    obtain ⟨new, hlog, hsync, hcount, hsub, hp, hc, hb⟩ :=
      forEachEvent_effects w (arrived w eq).queue (arrived w eq)
    refine ⟨new, hlog, hsync, ?_, hcount, hsub, hp, hc, hb, forEachEvent_nextID w _ _⟩
    intro i hi
    have h1 : 0 < new.count (Action.Delete i) := List.count_pos_iff.2 hi
    exact List.count_pos_iff.1 (lt_of_lt_of_le h1 (hcount i))

theorem gone_scan (w : World) (k : Nat) (eq : StatsPusher) (h : Gone k eq) :
    Gone k (scan w eq).1 ∧
    ∃ new, (scan w eq).1.log = eq.log ++ new ∧ Action.Delete k ∉ new := by
  have ha : Gone k (arrived w eq) := gone_enqueue k eq _ h
  obtain ⟨new, hlog, -, hdel, -, hsub, -, -, -, hn⟩ := scan_effects w eq
  refine ⟨⟨fun e he => ha.1 e (hsub.subset he), by rw [hn]; exact ha.2⟩, new, hlog, ?_⟩
  intro hm
  obtain ⟨e, he, hid⟩ := List.mem_map.1 (hdel k hm)
  exact ha.1 e he hid

theorem pollEvents_succ (w : World) (fuel : Nat) (eq : StatsPusher) :
    pollEvents w (fuel + 1) eq =
      if w.Done eq.log then some (eq.record Action.Done, none)
      else
        match scan w (eq.record (Action.After eq.Period)) with
        | (eq1, some err) => some (eq1, some err)
        | (eq1, none) =>
          pollEvents w fuel { eq1 with backoffSleeper := eq1.backoffSleeper.Reset } := rfl

theorem pollEvents_done (w : World) (fuel : Nat) (eq : StatsPusher)
    (h : w.Done eq.log = true) :
    pollEvents w (fuel + 1) eq = some (eq.record Action.Done, none) := by
  rw [pollEvents_succ, if_pos h]

theorem pollEvents_scan_err (w : World) (fuel : Nat) (eq eq1 : StatsPusher) (err : String)
    (h : w.Done eq.log = false)
    (hscan : scan w (eq.record (Action.After eq.Period)) = (eq1, some err)) :
    pollEvents w (fuel + 1) eq = some (eq1, some err) := by
  rw [pollEvents_succ, hscan]
  simp [h]

theorem pollEvents_scan_nil (w : World) (fuel : Nat) (eq eq1 : StatsPusher)
    (h : w.Done eq.log = false)
    (hscan : scan w (eq.record (Action.After eq.Period)) = (eq1, none)) :
    pollEvents w (fuel + 1) eq
      = pollEvents w fuel { eq1 with backoffSleeper := eq1.backoffSleeper.Reset } := by
  rw [pollEvents_succ, hscan]
  simp [h]

theorem pollEvents_effects (w : World) :
    ∀ (fuel : Nat) (eq eq1 : StatsPusher) (r : Option String),
      pollEvents w fuel eq = some (eq1, r) →
      ∃ new, eq1.log = eq.log ++ new ∧
        (∀ k, Gone k eq → Gone k eq1 ∧ Action.Delete k ∉ new) ∧
        eq1.Period = eq.Period ∧ eq1.cancel = eq.cancel ∧
        eq1.backoffSleeper.Min = eq.backoffSleeper.Min ∧
        eq1.backoffSleeper.Max = eq.backoffSleeper.Max ∧
        (r = none → ∃ pre, new = pre ++ [Action.Done] ∧ Action.Done ∉ pre ∧
          w.Done (eq.log ++ pre) = true) ∧
        (r ≠ none → Action.Done ∉ new) := by
  intro fuel
  induction fuel with
  | zero =>
    intro eq eq1 r h
    simp [pollEvents] at h
  | succ fuel ih =>
    intro eq eq1 r h
    by_cases hd : w.Done eq.log = true
    · rw [pollEvents_done w fuel eq hd] at h
      simp only [Option.some.injEq, Prod.mk.injEq] at h
      obtain ⟨h1, h2⟩ := h
      subst h1 h2
      refine ⟨[Action.Done], rfl, fun k hk => ⟨hk, by simp⟩, rfl, rfl, rfl, rfl, ?_, by simp⟩
      intro _
      exact ⟨[], by simp, by simp, by simpa using hd⟩
    · have hd : w.Done eq.log = false := by simpa using hd
      obtain ⟨new1, hlog1, hsync1, -, -, -, hp1, hc1, hb1, -⟩ :=
        scan_effects w (eq.record (Action.After eq.Period))
      have hgone1 : ∀ k, Gone k eq →
          Gone k (scan w (eq.record (Action.After eq.Period))).1 ∧
          Action.Delete k ∉ new1 := by
        intro k hk
        obtain ⟨hg, new', hlog', hnd'⟩ :=
          gone_scan w k (eq.record (Action.After eq.Period)) hk
        have hnew : new' = new1 := by
          have h1 : (eq.record (Action.After eq.Period)).log ++ new'
              = (eq.record (Action.After eq.Period)).log ++ new1 := by
            rw [← hlog', ← hlog1]
          exact List.append_cancel_left h1
        exact ⟨hg, by rw [← hnew]; exact hnd'⟩
      have hnd1 : Action.Done ∉ new1 := fun hm => by
        have := hsync1 _ hm
        simp [Action.isSync] at this
      cases hscan : scan w (eq.record (Action.After eq.Period)) with
      | mk s r1 =>
        rw [hscan] at hlog1 hp1 hc1 hb1 hgone1
        simp only [StatsPusher.record] at hlog1 hp1 hc1 hb1
        cases r1 with
        | some err =>
          rw [pollEvents_scan_err w fuel eq s err hd hscan] at h
          simp only [Option.some.injEq, Prod.mk.injEq] at h
          obtain ⟨h1, h2⟩ := h
          subst h1 h2
          refine ⟨Action.After eq.Period :: new1, by simp [hlog1], ?_, hp1, hc1,
            by rw [hb1], by rw [hb1], by simp, ?_⟩
          · intro k hk
            refine ⟨(hgone1 k hk).1, ?_⟩
            simp only [List.mem_cons, reduceCtorEq, false_or]
            exact (hgone1 k hk).2
          · intro _ hm
            simp only [List.mem_cons, reduceCtorEq, false_or] at hm
            exact hnd1 hm
        | none =>
          rw [pollEvents_scan_nil w fuel eq s hd hscan] at h
          obtain ⟨new2, hlog2, hgone2, hp2, hc2, hmin2, hmax2, hnil2, herr2⟩ :=
            ih _ eq1 r h
          simp only [Backoff.Reset] at hlog2 hp2 hc2 hmin2 hmax2 hnil2
          refine ⟨Action.After eq.Period :: new1 ++ new2, ?_, ?_,
            hp2.trans hp1, hc2.trans hc1, by rw [hmin2, hb1], by rw [hmax2, hb1], ?_, ?_⟩
          · rw [hlog2, hlog1]
            simp
          · intro k hk
            obtain ⟨hg1, hnd⟩ := hgone1 k hk
            obtain ⟨hg2, hnd2⟩ := hgone2 k hg1
            refine ⟨hg2, ?_⟩
            simp only [List.cons_append, List.mem_cons, reduceCtorEq, false_or,
              List.mem_append, not_or]
            exact ⟨hnd, hnd2⟩
          · intro hr
            obtain ⟨pre, hnew, hnd, hdone⟩ := hnil2 hr
            refine ⟨Action.After eq.Period :: new1 ++ pre, by simp [hnew], ?_, ?_⟩
            · simp only [List.cons_append, List.mem_cons, reduceCtorEq, false_or,
                List.mem_append, not_or]
              exact ⟨hnd1, hnd⟩
            · rw [hlog1] at hdone
              simpa using hdone
          · intro hr
            simp only [List.cons_append, List.mem_cons, reduceCtorEq, false_or,
              List.mem_append, not_or]
            exact ⟨hnd1, herr2 hr⟩

theorem eventLoopTurn_one_continued (w : World) (eq next : StatsPusher) (d : Nat)
    (h : eventLoopTurn w 1 eq = some (Turn.continued d next)) :
    w.Done eq.log = false ∧
    ∃ eq1 err, scan w (eq.record (Action.After eq.Period)) = (eq1, some err) ∧
      d = eq1.backoffSleeper.ForAttempt eq1.backoffSleeper.attempt ∧
      w.Done eq1.log = false ∧
      next = { eq1 with
        backoffSleeper := { eq1.backoffSleeper with attempt := eq1.backoffSleeper.attempt + 1 }
        log := eq1.log ++ [Action.After d] } := by
  by_cases hd : w.Done eq.log = true
  · have hp : pollEvents w 1 eq = some (eq.record Action.Done, none) :=
      pollEvents_done w 0 eq hd
    simp [eventLoopTurn, hp] at h
  · have hd : w.Done eq.log = false := by simpa using hd
    refine ⟨hd, ?_⟩
    cases hscan : scan w (eq.record (Action.After eq.Period)) with
    | mk s r1 =>
      cases r1 with
      | none =>
        have hp : pollEvents w 1 eq = none := pollEvents_scan_nil w 0 eq s hd hscan
        simp [eventLoopTurn, hp] at h
      | some err =>
        have hp : pollEvents w 1 eq = some (s, some err) :=
          pollEvents_scan_err w 0 eq s err hd hscan
        simp only [eventLoopTurn, hp] at h
        by_cases hd1 : w.Done s.log = true
        · simp [hd1] at h
        · have hd1 : w.Done s.log = false := by simpa using hd1
          simp only [hd1, Bool.false_eq_true, if_false, Option.some.injEq,
            Turn.continued.injEq] at h
          obtain ⟨h1, h2⟩ := h
          refine ⟨s, err, rfl, ?_, hd1, ?_⟩
          · rw [← h1]; rfl
          · rw [← h2, ← h1]; rfl

/-! ### Passes that fail on an event, passes that accept it -/

theorem scan_firstFailure (w : World) (eq : StatsPusher) (earlier : List SyncEvent)
    (event : SyncEvent) (later : List SyncEvent) (err : String)
    (hfind : w.Find (arrived w eq).log = none)
    (hq : (arrived w eq).queue = earlier ++ event :: later)
    (hid : ((arrived w eq).queue.map SyncEvent.ID).Nodup)
    (hfirst : FirstFailure w (arrived w eq) earlier event err) :
    ∃ eq1 new, scan w eq = (eq1, some err) ∧ eq1.queue = event :: later ∧
      eq1.log = eq.log ++ new ∧
      sends new = (earlier ++ [event]).map SyncEvent.Body ∧
      eq1.Period = eq.Period ∧ eq1.cancel = eq.cancel ∧
      eq1.backoffSleeper = eq.backoffSleeper ∧
      eq1.nextID = (arrived w eq).nextID := by
  obtain ⟨eq1, new, hrun, hqueue, hlog, hs, hp, hc, hb⟩ :=
    forEachEvent_firstFailure w earlier (arrived w eq) event later err hfirst
  have hn : eq1.nextID = (arrived w eq).nextID := by
    have := forEachEvent_nextID w (earlier ++ event :: later) (arrived w eq)
    rw [hrun] at this
    exact this
  refine ⟨eq1, new, ?_, ?_, hlog, hs, hp, hc, hb, hn⟩
  · rw [scan_find_ok w eq hfind, hq]
    exact hrun
  · rw [hqueue, hq]
    rw [hq] at hid
    exact filter_earlier earlier (event :: later) hid

theorem distinctIDs_scanStart (w : World) (eq : StatsPusher) (h : DistinctIDs eq) :
    DistinctIDs (scanStart w eq) :=
  distinctIDs_enqueue (eq.record (Action.After eq.Period)) _ h

theorem failedPass_step (w : World) (event : SyncEvent) (eq next : StatsPusher)
    (hid : DistinctIDs eq)
    (h : FailedPass w event eq next) :
    event ∈ next.queue ∧ DistinctIDs next := by
  obtain ⟨⟨hfind, earlier, later, err, hq, hfirst⟩, d, hturn⟩ := h
  obtain ⟨-, eq1, err1, hscan1, -, -, hnext⟩ := eventLoopTurn_one_continued w eq next d hturn
  have hstart := distinctIDs_scanStart w eq hid
  obtain ⟨eq2, new, hscan2, hqueue, -, -, -, -, -, hn⟩ :=
    scan_firstFailure w (eq.record (Action.After eq.Period)) earlier event later err
      hfind hq hstart.1 hfirst
  rw [hscan2] at hscan1
  simp only [Prod.mk.injEq] at hscan1
  obtain ⟨h1, -⟩ := hscan1
  subst h1
  have hnq : next.queue = event :: later := by rw [hnext]; exact hqueue
  have hnn : next.nextID = (scanStart w eq).nextID := by rw [hnext]; exact hn
  have hsub : List.Sublist next.queue (scanStart w eq).queue := by
    rw [hnq, hq]
    exact List.sublist_append_right earlier (event :: later)
  refine ⟨by simp [hnq], (hsub.map SyncEvent.ID).nodup hstart.1, ?_⟩
  intro e he
  rw [hnn]
  exact hstart.2 e (hsub.subset he)

theorem failedPasses_keep (w : World) (event : SyncEvent) :
    ∀ (states : List StatsPusher) (eq : StatsPusher),
      DistinctIDs eq →
      List.Chain (FailedPass w event) eq states →
      (∀ s ∈ states, event ∈ s.queue) ∧
      DistinctIDs ((eq :: states).getLast (List.cons_ne_nil eq states)) := by
  intro states
  induction states with
  | nil =>
    intro eq hid _
    exact ⟨by simp, by simpa using hid⟩
  | cons s rest ih =>
    intro eq hid hchain
    rw [List.chain_cons] at hchain
    obtain ⟨hstep, hrest⟩ := hchain
    obtain ⟨hmem, hid1⟩ := failedPass_step w event eq s hid hstep
    obtain ⟨h1, h2⟩ := ih s hid1 hrest
    refine ⟨?_, ?_⟩
    · intro x hx
      rcases List.mem_cons.1 hx with h | h
      · rw [h]; exact hmem
      · exact h1 x h
    · rw [List.getLast_cons (List.cons_ne_nil s rest)]
      exact h2

theorem forEachEvent_accepted (w : World) (earlier : List SyncEvent) (eq : StatsPusher)
    (event : SyncEvent) (later : List SyncEvent)
    (h : AcceptedAndDeletedAfter w eq earlier event) :
    ∃ s2 mid, forEachEvent (syncEvent w) (earlier ++ event :: later) eq
        = forEachEvent (syncEvent w) later s2 ∧
      s2.log = eq.log ++ mid ∧ Action.Delete event.ID ∈ mid ∧
      (∀ e ∈ s2.queue, e.ID ≠ event.ID) := by
  obtain ⟨hP, hrun⟩ := forEachEvent_reaches w _ earlier eq h
  have hnil : (syncEvent w (reached eq earlier) event).2 = none :=
    (syncEvent_nil_iff w _ event).2 hP
  refine ⟨(syncEvent w (reached eq earlier) event).1,
    syncedCalls earlier ++ [Action.Send event.Body, Action.Receive, Action.Delete event.ID],
    ?_, ?_, by simp, ?_⟩
  · rw [hrun, forEachEvent_cons_nil (syncEvent w) event later _ hnil]
  · rw [syncEvent_log_nil w _ event hnil]
    simp [reached]
  · intro e he
    rw [syncEvent_queue_nil w _ event hnil] at he
    simpa using (List.mem_filter.1 he).2

theorem scan_accepting (w : World) (eq : StatsPusher) (earlier : List SyncEvent)
    (event : SyncEvent) (later : List SyncEvent)
    (hfind : w.Find (arrived w eq).log = none)
    (hq : (arrived w eq).queue = earlier ++ event :: later)
    (hid : DistinctIDs (arrived w eq))
    (h : AcceptedAndDeletedAfter w (arrived w eq) earlier event) :
    Gone event.ID (scan w eq).1 ∧
    ∃ new, (scan w eq).1.log = eq.log ++ new ∧ new.count (Action.Delete event.ID) = 1 := by
  obtain ⟨s2, mid, hrun, hlog2, hmem, hq2⟩ :=
    forEachEvent_accepted w earlier (arrived w eq) event later h
  obtain ⟨new2, hlog3, -, -, hsub3, -⟩ := forEachEvent_effects w later s2
  obtain ⟨new, hlog, -, -, hcount, -, -, -, -, hn⟩ := scan_effects w eq
  have hscan : scan w eq = forEachEvent (syncEvent w) later s2 := by
    rw [scan_find_ok w eq hfind, hq]
    exact hrun
  have hev : event ∈ (arrived w eq).queue := by rw [hq]; simp
  refine ⟨⟨?_, by rw [hn]; exact hid.2 event hev⟩, new, hlog, ?_⟩
  · intro e he
    rw [hscan] at he
    exact hq2 e (hsub3.subset he)
  · have hnew : new = mid ++ new2 := by
      have h1 : eq.log ++ new = eq.log ++ (mid ++ new2) := by
        rw [← hlog, hscan, hlog3, hlog2, List.append_assoc]
        rfl
      exact List.append_cancel_left h1
    have hle : new.count (Action.Delete event.ID) ≤ 1 :=
      le_trans (hcount event.ID) (List.nodup_iff_count_le_one.1 hid.1 event.ID)
    have hge : 0 < new.count (Action.Delete event.ID) := by
      rw [hnew]
      exact List.count_pos_iff.2 (List.mem_append_left _ hmem)
    omega

theorem pollEvents_accepting (w : World) (event : SyncEvent) (eq : StatsPusher)
    (hid : DistinctIDs eq)
    (h : AcceptingPass w event eq) (fuel : Nat) (eq1 : StatsPusher) (r : Option String)
    (hrun : pollEvents w fuel eq = some (eq1, r)) :
    event ∉ eq1.queue ∧
    ∃ new, eq1.log = eq.log ++ new ∧ new.count (Action.Delete event.ID) = 1 := by
  obtain ⟨hd, hfind, earlier, later, hq, hacc⟩ := h
  obtain ⟨hgone, new1, hlog1, hcount1⟩ :=
    scan_accepting w (eq.record (Action.After eq.Period)) earlier event later
      hfind hq (distinctIDs_scanStart w eq hid) hacc
  cases fuel with
  | zero => simp [pollEvents] at hrun
  | succ fuel =>
    cases hscan : scan w (eq.record (Action.After eq.Period)) with
    | mk s r1 =>
      rw [hscan] at hgone hlog1
      simp only [StatsPusher.record] at hlog1
      cases r1 with
      | some err =>
        rw [pollEvents_scan_err w fuel eq s err hd hscan] at hrun
        simp only [Option.some.injEq, Prod.mk.injEq] at hrun
        obtain ⟨h1, -⟩ := hrun
        subst h1
        refine ⟨fun hm => hgone.1 event hm rfl, Action.After eq.Period :: new1, ?_, ?_⟩
        · rw [hlog1]; simp
        · rw [List.count_cons]
          simpa using hcount1
      | none =>
        rw [pollEvents_scan_nil w fuel eq s hd hscan] at hrun
        obtain ⟨new2, hlog2, hgone2, -⟩ := pollEvents_effects w fuel _ eq1 r hrun
        obtain ⟨hg2, hnd2⟩ := hgone2 event.ID hgone
        simp only at hlog2
        refine ⟨fun hm => hg2.1 event hm rfl,
          Action.After eq.Period :: new1 ++ new2, ?_, ?_⟩
        · rw [hlog2, hlog1]; simp
        · have h0 : new2.count (Action.Delete event.ID) = 0 := List.count_eq_zero.2 hnd2
          rw [List.count_append, List.count_cons, h0]
          simpa using hcount1

/-! ### Backoff delays -/

theorem eventLoopTurn_one_backoff (w : World) (eq next : StatsPusher) (d : Nat)
    (h : eventLoopTurn w 1 eq = some (Turn.continued d next)) :
    d = eq.backoffSleeper.ForAttempt eq.backoffSleeper.attempt ∧
    next.backoffSleeper = { eq.backoffSleeper with attempt := eq.backoffSleeper.attempt + 1 } := by
  obtain ⟨-, eq1, err, hscan, hd, -, hnext⟩ := eventLoopTurn_one_continued w eq next d h
  obtain ⟨-, -, -, -, -, -, -, -, hb, -⟩ := scan_effects w (eq.record (Action.After eq.Period))
  rw [hscan] at hb
  simp only [StatsPusher.record] at hb
  rw [hb] at hd hnext
  exact ⟨hd, by rw [hnext]⟩

theorem consecutiveDelays_eq (w : World) :
    ∀ (n : Nat) (eq : StatsPusher) (ds : List Nat),
      consecutiveDelays w n eq = some ds →
      ds.length = n ∧
      ∀ i d, ds[i]? = some d →
        d = eq.backoffSleeper.ForAttempt (eq.backoffSleeper.attempt + i) := by
  intro n
  induction n with
  | zero =>
    intro eq ds h
    simp only [consecutiveDelays, Option.some.injEq] at h
    subst h
    simp
  | succ n ih =>
    intro eq ds h
    simp only [consecutiveDelays] at h
    cases hturn : eventLoopTurn w 1 eq with
    | none => simp [hturn] at h
    | some t =>
      cases t with
      | returned s => simp [hturn] at h
      | continued d0 next =>
        simp only [hturn, Option.map_eq_some'] at h
        obtain ⟨rest, hrest, hds⟩ := h
        obtain ⟨hd0, hnext⟩ := eventLoopTurn_one_backoff w eq next d0 hturn
        obtain ⟨hlen, hget⟩ := ih next rest hrest
        subst hds
        refine ⟨by simp [hlen], ?_⟩
        intro i d hi
        cases i with
        | zero =>
          simp only [List.getElem?_cons_zero, Option.some.injEq] at hi
          rw [← hi, hd0]
          rfl
        | succ i =>
          simp only [List.getElem?_cons_succ] at hi
          rw [hget i d hi, hnext]
          simp only [Backoff.ForAttempt]
          congr 3
          omega

theorem forAttempt_configured (i : Nat) :
    (NewStatsPusher []).backoffSleeper.ForAttempt i = min (second * 2 ^ i) (5 * minute) := by
  simp [NewStatsPusher, Backoff.ForAttempt]

theorem configured_delay_bounds (i : Nat) :
    1 * second ≤ min (second * 2 ^ i) (5 * minute) ∧
    min (second * 2 ^ i) (5 * minute) ≤ 5 * minute ∧
    min (second * 2 ^ i) (5 * minute) ≤ min (second * 2 ^ (i + 1)) (5 * minute) ∧
    (min (second * 2 ^ i) (5 * minute) < 5 * minute →
      min (second * 2 ^ i) (5 * minute) < min (second * 2 ^ (i + 1)) (5 * minute)) := by
  have hpos : 1 ≤ 2 ^ i := Nat.one_le_two_pow
  have hsucc : second * 2 ^ (i + 1) = 2 * (second * 2 ^ i) := by ring
  have hx : second ≤ second * 2 ^ i := Nat.le_mul_of_pos_right _ (by omega)
  rw [hsucc]
  generalize second * 2 ^ i = x at hx
  simp only [second, minute] at hx ⊢
  omega

theorem pollEvents_backoff (w : World) :
    ∀ (fuel : Nat) (eq eq1 : StatsPusher) (r : Option String),
      pollEvents w fuel eq = some (eq1, r) →
      eq1.backoffSleeper = eq.backoffSleeper ∨
        eq1.backoffSleeper = eq.backoffSleeper.Reset := by
  intro fuel
  induction fuel with
  | zero =>
    intro eq eq1 r h
    simp [pollEvents] at h
  | succ fuel ih =>
    intro eq eq1 r h
    by_cases hd : w.Done eq.log = true
    · rw [pollEvents_done w fuel eq hd] at h
      simp only [Option.some.injEq, Prod.mk.injEq] at h
      obtain ⟨h1, -⟩ := h
      subst h1
      exact Or.inl rfl
    · have hd : w.Done eq.log = false := by simpa using hd
      obtain ⟨-, -, -, -, -, -, -, -, hb, -⟩ :=
        scan_effects w (eq.record (Action.After eq.Period))
      cases hscan : scan w (eq.record (Action.After eq.Period)) with
      | mk s r1 =>
        rw [hscan] at hb
        simp only [StatsPusher.record] at hb
        cases r1 with
        | some err =>
          rw [pollEvents_scan_err w fuel eq s err hd hscan] at h
          simp only [Option.some.injEq, Prod.mk.injEq] at h
          obtain ⟨h1, -⟩ := h
          subst h1
          exact Or.inl hb
        | none =>
          rw [pollEvents_scan_nil w fuel eq s hd hscan] at h
          right
          rcases ih _ eq1 r h with h1 | h1
          · rw [h1, hb]
          · rw [h1, hb]
            rfl

/-! ### Rejections and transport errors -/

theorem syncEvent_receiveFails (w : World) (eq : StatsPusher) (event : SyncEvent)
    (err : String) (h : ReceiveFails w eq event err) :
    syncEvent w eq event
      = ({ eq with log := eq.log ++ [Action.Send event.Body, Action.Receive] }, some err) := by
  unfold ReceiveFails at h
  unfold syncEvent
  simp [StatsPusher.record, h]

theorem syncEvent_rejected (w : World) (eq : StatsPusher) (event : SyncEvent)
    (h : Rejected w eq event) :
    ∃ err, syncEvent w eq event
      = ({ eq with log := eq.log ++ [Action.Send event.Body, Action.Receive] }, some err) := by
  obtain ⟨message, hr, hu⟩ := h
  unfold syncEvent dbDelete
  simp only [StatsPusher.record, List.append_assoc, List.singleton_append, hr]
  cases hm : w.Unmarshal message with
  | error err => exact ⟨err, by simp⟩
  | ok status =>
    cases status with
    | none => exact ⟨"event not created", by simp⟩
    | some n =>
      have hn : n ≠ 201 := by
        intro hn
        rw [hm, hn] at hu
        exact hu rfl
      exact ⟨"event not created", by simp [hn]⟩

theorem scan_stops (w : World) (P : StatsPusher → Prop) (eq : StatsPusher)
    (earlier : List SyncEvent) (event : SyncEvent) (later : List SyncEvent) (err : String)
    (hfind : w.Find (arrived w eq).log = none)
    (hq : (arrived w eq).queue = earlier ++ event :: later)
    (hid : ((arrived w eq).queue.map SyncEvent.ID).Nodup)
    (hreach : Reaches w P (arrived w eq) earlier)
    (hsync : syncEvent w (reached (arrived w eq) earlier) event
      = ({ reached (arrived w eq) earlier with
          log := (reached (arrived w eq) earlier).log
            ++ [Action.Send event.Body, Action.Receive] },
        some err)) :
    scan w eq = ({ arrived w eq with
      queue := event :: later
      log := eq.log ++ (syncedCalls earlier ++ [Action.Send event.Body, Action.Receive]) },
      some err) := by
  obtain ⟨-, hrun⟩ := forEachEvent_reaches w P earlier (arrived w eq) hreach
  rw [scan_find_ok w eq hfind, hq, hrun,
    forEachEvent_cons_err (syncEvent w) event later _ err (by rw [hsync]), hsync]
  have hf := filter_earlier earlier (event :: later) (by rw [← hq]; exact hid)
  have hl : (arrived w eq).log = eq.log := rfl
  simp only [reached, hq, hf, hl, List.append_assoc]

theorem eventLoopTurn_err (w : World) (fuel : Nat) (eq eq1 : StatsPusher) (err : String)
    (h : pollEvents w fuel eq = some (eq1, some err)) :
    eventLoopTurn w fuel eq =
      if w.Done eq1.log then
        some (Turn.returned
          ({ eq1 with backoffSleeper := eq1.backoffSleeper.Duration.2 }.record Action.Done))
      else
        some (Turn.continued eq1.backoffSleeper.Duration.1
          ({ eq1 with backoffSleeper := eq1.backoffSleeper.Duration.2 }.record
            (Action.After eq1.backoffSleeper.Duration.1))) := by
  simp only [eventLoopTurn, h]

/-! ### Returning from eventLoop -/

theorem eventLoop_succ (w : World) (fuel turns : Nat) (eq : StatsPusher) :
    eventLoop w fuel (turns + 1) eq =
      match eventLoopTurn w fuel eq with
      | none => none
      | some (Turn.returned eq1) => some eq1
      | some (Turn.continued _ eq1) => eventLoop w fuel turns eq1 := rfl

theorem eventLoop_effects (w : World) (fuel : Nat) :
    ∀ (turns : Nat) (eq eq1 : StatsPusher),
      eventLoop w fuel turns eq = some eq1 →
      ∃ pre, eq1.log = eq.log ++ pre ++ [Action.Done] ∧ Action.Done ∉ pre ∧
        w.Done (eq.log ++ pre) = true := by
  intro turns
  induction turns with
  | zero =>
    intro eq eq1 h
    simp [eventLoop] at h
  | succ turns ih =>
    intro eq eq1 h
    rw [eventLoop_succ] at h
    cases hp : pollEvents w fuel eq with
    | none => simp [eventLoopTurn, hp] at h
    | some res =>
      obtain ⟨s, r⟩ := res
      obtain ⟨new, hlog, -, -, -, -, -, hnil, herr⟩ := pollEvents_effects w fuel eq s r hp
      cases r with
      | none =>
        simp only [eventLoopTurn, hp, Option.some.injEq] at h
        subst h
        obtain ⟨pre, hnew, hnd, hdone⟩ := hnil rfl
        exact ⟨pre, by rw [hlog, hnew, List.append_assoc], hnd, hdone⟩
      | some err =>
        have hnd : Action.Done ∉ new := herr (by simp)
        rw [eventLoopTurn_err w fuel eq s err hp] at h
        by_cases hd : w.Done s.log = true
        · simp only [hd, if_true, Option.some.injEq] at h
          subst h
          refine ⟨new, by simp [StatsPusher.record, hlog], hnd, by rw [← hlog]; exact hd⟩
        · have hd : w.Done s.log = false := by simpa using hd
          simp only [hd, Bool.false_eq_true, if_false] at h
          obtain ⟨pre, hlog1, hnd1, hdone1⟩ := ih _ eq1 h
          simp only [StatsPusher.record] at hlog1 hdone1
          refine ⟨new ++ Action.After s.backoffSleeper.Duration.1 :: pre, ?_, ?_, ?_⟩
          · rw [hlog1, hlog]
            simp
          · simp only [List.mem_append, List.mem_cons, reduceCtorEq, false_or, not_or]
            exact ⟨hnd, hnd1⟩
          · rw [hlog] at hdone1
            simpa using hdone1

/-! ### More fuel changes nothing -/

theorem pollEvents_fuel_mono (w : World) :
    ∀ (fuel more : Nat) (eq : StatsPusher) (res : StatsPusher × Option String),
      pollEvents w fuel eq = some res → pollEvents w (fuel + more) eq = some res := by
  intro fuel
  induction fuel with
  | zero =>
    intro more eq res h
    simp [pollEvents] at h
  | succ fuel ih =>
    intro more eq res h
    have hadd : fuel + 1 + more = (fuel + more) + 1 := by omega
    rw [hadd, pollEvents_succ]
    rw [pollEvents_succ] at h
    by_cases hd : w.Done eq.log = true
    · simpa [hd] using h
    · simp only [hd, if_false] at h ⊢
      cases hscan : scan w (eq.record (Action.After eq.Period)) with
      | mk s r1 =>
        rw [hscan] at h
        cases r1 with
        | some err => simpa using h
        | none => exact ih more _ res h

theorem eventLoopTurn_fuel_mono (w : World) (fuel more : Nat) (eq : StatsPusher) (t : Turn)
    (h : eventLoopTurn w fuel eq = some t) :
    eventLoopTurn w (fuel + more) eq = some t := by
  cases hp : pollEvents w fuel eq with
  | none => simp [eventLoopTurn, hp] at h
  | some res =>
    have hp1 := pollEvents_fuel_mono w fuel more eq res hp
    simp only [eventLoopTurn, hp] at h
    simp only [eventLoopTurn, hp1]
    exact h

theorem eventLoop_fuel_mono (w : World) (fuel more : Nat) :
    ∀ (turns extra : Nat) (eq eq1 : StatsPusher),
      eventLoop w fuel turns eq = some eq1 →
      eventLoop w (fuel + more) (turns + extra) eq = some eq1 := by
  intro turns
  induction turns with
  | zero =>
    intro extra eq eq1 h
    simp [eventLoop] at h
  | succ turns ih =>
    intro extra eq eq1 h
    have hadd : turns + 1 + extra = (turns + extra) + 1 := by omega
    rw [hadd, eventLoop_succ]
    rw [eventLoop_succ] at h
    cases ht : eventLoopTurn w fuel eq with
    | none => simp [ht] at h
    | some t =>
      rw [eventLoopTurn_fuel_mono w fuel more eq t ht]
      rw [ht] at h
      cases t with
      | returned s => exact h
      | continued d s => exact ih extra s eq1 h

/-! ### The goroutine, step by step -/

theorem loop_steps_compute_scan (w : World) :
    ∀ (events : List SyncEvent) (p : Process),
      p.loop = some (Loop.scanning events) →
      ∃ n, runSchedule w (List.replicate n (Sched.loop true)) p =
        match forEachEvent (syncEvent w) events p.eq with
        | (s, none) =>
          { p with
            eq := { s with backoffSleeper := s.backoffSleeper.Reset }
            loop := some Loop.pollWait }
        | (s, some _) =>
          { p with
            eq := { s with backoffSleeper := s.backoffSleeper.Duration.2 }
            loop := some (Loop.backoffWait s.backoffSleeper.Duration.1) } := by
  intro events
  induction events with
  | nil =>
    intro p hp
    refine ⟨1, ?_⟩
    simp [runSchedule, loopStep, hp, forEachEvent]
  | cons e rest ih =>
    intro p hp
    cases hres : (syncEvent w p.eq e).2 with
    | some err =>
      refine ⟨1, ?_⟩
      rw [forEachEvent_cons_err (syncEvent w) e rest p.eq err hres]
      have hs : syncEvent w p.eq e = ((syncEvent w p.eq e).1, some err) := by
        rw [← hres]
      simp only [List.replicate, runSchedule, loopStep, hp]
      rw [hs]
    | none =>
      have hs : syncEvent w p.eq e = ((syncEvent w p.eq e).1, none) := by
        rw [← hres]
      obtain ⟨n, hn⟩ := ih { p with eq := (syncEvent w p.eq e).1, loop := some (Loop.scanning rest) } rfl
      refine ⟨n + 1, ?_⟩
      rw [forEachEvent_cons_nil (syncEvent w) e rest p.eq hres]
      have hstep : loopStep w true p
          = { p with eq := (syncEvent w p.eq e).1, loop := some (Loop.scanning rest) } := by
        simp only [loopStep, hp]
        rw [hs]
      rw [List.replicate_succ, runSchedule, hstep, hn]

theorem loop_steps_compute_tick (w : World) (p : Process)
    (hp : p.loop = some Loop.pollWait) :
    ∃ n, runSchedule w (List.replicate n (Sched.loop true)) p =
      match scan w (p.eq.record (Action.After p.eq.Period)) with
      | (s, none) =>
        { p with
          eq := { s with backoffSleeper := s.backoffSleeper.Reset }
          loop := some Loop.pollWait }
      | (s, some _) =>
        { p with
          eq := { s with backoffSleeper := s.backoffSleeper.Duration.2 }
          loop := some (Loop.backoffWait s.backoffSleeper.Duration.1) } := by
  cases hf : w.Find (arrived w (p.eq.record (Action.After p.eq.Period))).log with
  | some err =>
    refine ⟨1, ?_⟩
    rw [scan_find_err w _ err hf]
    simp [runSchedule, loopStep, hp, hf]
  | none =>
    obtain ⟨n, hn⟩ := loop_steps_compute_scan w
      (arrived w (p.eq.record (Action.After p.eq.Period))).queue
      { p with
        eq := arrived w (p.eq.record (Action.After p.eq.Period))
        loop := some (Loop.scanning
          (arrived w (p.eq.record (Action.After p.eq.Period))).queue) } rfl
    refine ⟨n + 1, ?_⟩
    have hstep : loopStep w true p
        = { p with
            eq := arrived w (p.eq.record (Action.After p.eq.Period))
            loop := some (Loop.scanning
              (arrived w (p.eq.record (Action.After p.eq.Period))).queue) } := by
      simp [loopStep, hp, hf]
    rw [List.replicate_succ, runSchedule, hstep, hn, scan_find_ok w _ hf]

/-! ## The claims -/

/-- C1: syncEvent changes the queue only when the response was received, parsed
and carried status 201; it returns nil exactly when that holds and the delete
succeeded, and then the event is removed; whenever it returns an error the
queue is unchanged.  The error is the transport's when the receive fails, the
decoder's when the response does not parse, "event not created" when the status
is missing or is not 201, and the database's when the delete fails. -/
theorem syncEvent_deletes_only_on_acceptance (w : World) (eq : StatsPusher)
    (event : SyncEvent) :
    ((syncEvent w eq event).1.queue ≠ eq.queue → Accepted w eq event) ∧
    ((syncEvent w eq event).2 = none ↔ Accepted w eq event ∧ DeleteSucceeds w eq event) ∧
    ((syncEvent w eq event).2 = none →
      (syncEvent w eq event).1.queue = eq.queue.filter (fun e => e.ID ≠ event.ID)) ∧
    ((syncEvent w eq event).2 = none → event ∉ (syncEvent w eq event).1.queue) ∧
    ((syncEvent w eq event).2 ≠ none → (syncEvent w eq event).1.queue = eq.queue) ∧
    (∀ err, w.Receive (eq.log ++ [Action.Send event.Body]) = Except.error err →
      (syncEvent w eq event).2 = some err) ∧
    (∀ message, w.Receive (eq.log ++ [Action.Send event.Body]) = Except.ok message →
      (∀ err, w.Unmarshal message = Except.error err →
        (syncEvent w eq event).2 = some err) ∧
      (w.Unmarshal message = Except.ok none →
        (syncEvent w eq event).2 = some "event not created") ∧
      (∀ status, w.Unmarshal message = Except.ok (some status) → status ≠ 201 →
        (syncEvent w eq event).2 = some "event not created") ∧
      (∀ err, w.Unmarshal message = Except.ok (some 201) →
        w.Delete (eq.log ++ [Action.Send event.Body, Action.Receive]) event = some err →
        (syncEvent w eq event).2 = some err)) := by
  refine ⟨?_, syncEvent_nil_iff w eq event, syncEvent_queue_nil w eq event, ?_,
    syncEvent_queue_err w eq event, ?_, ?_⟩
  · intro hchanged
    by_cases hnil : (syncEvent w eq event).2 = none
    · exact ((syncEvent_nil_iff w eq event).1 hnil).1
    · exact absurd (syncEvent_queue_err w eq event hnil) hchanged
  · intro hnil hmem
    rw [syncEvent_queue_nil w eq event hnil] at hmem
    simpa using (List.mem_filter.1 hmem).2
  · intro err hr
    simp [syncEvent, StatsPusher.record, hr]
  · intro message hr
    refine ⟨?_, ?_, ?_, ?_⟩
    · intro err hu
      simp [syncEvent, StatsPusher.record, hr, hu]
    · intro hu
      simp [syncEvent, StatsPusher.record, hr, hu]
    · intro status hu hne
      simp [syncEvent, StatsPusher.record, hr, hu, hne]
    · intro err hu hd
      simp [syncEvent, dbDelete, StatsPusher.record, hr, hu, hd]

/-- C2: when the timer wins the wait of pollEvents, the table is read and holds
`earlier ++ event :: later` (distinct IDs), and `event` is the first whose
syncEvent fails in the scan, pollEvents returns that error, the queue left is
`event :: later`, and the payloads sent are those of `earlier` and `event`
only. -/
theorem pollEvents_aborts_at_first_failure (w : World) (fuel : Nat) (eq : StatsPusher)
    (earlier : List SyncEvent) (event : SyncEvent) (later : List SyncEvent) (err : String)
    (hq : (scanStart w eq).queue = earlier ++ event :: later)
    (hid : ((scanStart w eq).queue.map SyncEvent.ID).Nodup)
    (htick : w.Done eq.log = false)
    (hfind : w.Find (scanStart w eq).log = none)
    (hfirst : FirstFailure w (scanStart w eq) earlier event err) :
    ∃ eq1 new, pollEvents w (fuel + 1) eq = some (eq1, some err) ∧
      eq1.queue = event :: later ∧
      eq1.log = eq.log ++ Action.After eq.Period :: new ∧
      sends new = (earlier ++ [event]).map SyncEvent.Body := by
  obtain ⟨eq1, new, hscan, hqueue, hlog, hs, -⟩ :=
    scan_firstFailure w (eq.record (Action.After eq.Period)) earlier event later err
      hfind hq hid hfirst
  refine ⟨eq1, new, pollEvents_scan_err w fuel eq eq1 err htick hscan, hqueue, ?_, hs⟩
  rw [hlog]
  simp [StatsPusher.record]

/-- C2, witness: with A, B, C queued and B failing, A is deleted, B and C stay
queued, and only A and B were sent. -/
theorem pollEvents_aborts_at_first_failure_witness :
    ∃ eq1 new, pollEvents worldOnlyA 1 (NewStatsPusher [eventA, eventB, eventC])
        = some (eq1, some "connection lost") ∧
      eq1.queue = [eventB, eventC] ∧
      eq1.log = [] ++ Action.After (5 * second) :: new ∧
      sends new = ["A", "B"] :=
  pollEvents_aborts_at_first_failure worldOnlyA 0 (NewStatsPusher [eventA, eventB, eventC])
    [eventA] eventB [eventC] "connection lost" rfl (by decide) rfl rfl
    (by simp only [FirstFailure, Reaches]; decide)

/-- C3, as stated, fails: with no failed pass before, the event is answered with
status 201 in the pass, the delete fails, and the event is still queued when the
pass returns. -/
theorem accepted_event_survives_failed_delete :
    AcceptedAfter worldDeleteFails
      ((NewStatsPusher [eventA]).record (Action.After (5 * second))) [] eventA ∧
    (pollEvents worldDeleteFails 1 (NewStatsPusher [eventA])).map
      (fun r => (r.1.queue, r.2)) = some ([eventA], some "database is locked") :=
  ⟨⟨created, rfl, rfl⟩, by decide⟩

/-- C3, amended: over a queue with distinct IDs, after each of the passes of
eventLoop that fail on the event it is still queued; in the next pass, where it
is answered with status 201 and its delete succeeds, the scan removes it, and
whenever that pass returns the event is gone and its delete was issued exactly
once in the pass. -/
theorem event_kept_until_accepted_and_deleted (w : World) (event : SyncEvent)
    (eq : StatsPusher) (states : List StatsPusher) (last : StatsPusher)
    (hid : DistinctIDs eq)
    (hfail : List.Chain (FailedPass w event) eq states)
    (hlast : (eq :: states).getLast? = some last)
    (hacc : AcceptingPass w event last) :
    (∀ s ∈ states, event ∈ s.queue) ∧
    event ∉ (scan w (last.record (Action.After last.Period))).1.queue ∧
    (∀ fuel eq1 r, pollEvents w fuel last = some (eq1, r) →
      event ∉ eq1.queue ∧
      ∃ new, eq1.log = last.log ++ new ∧ new.count (Action.Delete event.ID) = 1) := by
  obtain ⟨hkeep, hidlast⟩ := failedPasses_keep w event states eq hid hfail
  have hl : (eq :: states).getLast (List.cons_ne_nil eq states) = last := by
    rw [List.getLast?_eq_getLast _ (List.cons_ne_nil eq states)] at hlast
    exact Option.some.inj hlast
  rw [hl] at hidlast
  refine ⟨hkeep, ?_, ?_⟩
  · obtain ⟨-, hfind, earlier, later, hq, hsynced⟩ := hacc
    intro hm
    exact (scan_accepting w (last.record (Action.After last.Period)) earlier event later
      hfind hq (distinctIDs_scanStart w last hidlast) hsynced).1.1 event hm rfl
  · intro fuel eq1 r hrun
    exact pollEvents_accepting w event last hidlast hacc fuel eq1 r hrun

/-- C3, witness: one failed receive, then an acknowledgement; the context is
cancelled after the delete, so the accepting pass returns. -/
theorem event_kept_until_accepted_and_deleted_witness :
    (∀ s ∈ [afterOneFailure], eventA ∈ s.queue) ∧
    eventA ∉ (scan worldRetryThenCancelled
      (afterOneFailure.record (Action.After afterOneFailure.Period))).1.queue ∧
    pollEvents worldRetryThenCancelled 2 afterOneFailure = some (cancelledAfterAccept, none) ∧
    eventA ∉ cancelledAfterAccept.queue ∧
    ∃ new, cancelledAfterAccept.log = afterOneFailure.log ++ new ∧
      new.count (Action.Delete eventA.ID) = 1 :=
  ⟨(event_kept_until_accepted_and_deleted worldRetryThenCancelled eventA
      (NewStatsPusher [eventA]) [afterOneFailure] afterOneFailure
      ⟨by decide, by decide⟩
      (List.Chain.cons
        ⟨⟨rfl, [], [], "connection lost", rfl, by simp only [FirstFailure, Reaches]; decide⟩,
          1 * second, by decide⟩
        List.Chain.nil)
      rfl
      ⟨rfl, rfl, [], [], rfl, ⟨created, rfl, rfl⟩, rfl⟩).1,
    (event_kept_until_accepted_and_deleted worldRetryThenCancelled eventA
      (NewStatsPusher [eventA]) [afterOneFailure] afterOneFailure
      ⟨by decide, by decide⟩
      (List.Chain.cons
        ⟨⟨rfl, [], [], "connection lost", rfl, by simp only [FirstFailure, Reaches]; decide⟩,
          1 * second, by decide⟩
        List.Chain.nil)
      rfl
      ⟨rfl, rfl, [], [], rfl, ⟨created, rfl, rfl⟩, rfl⟩).2.1,
    by decide,
    (event_kept_until_accepted_and_deleted worldRetryThenCancelled eventA
      (NewStatsPusher [eventA]) [afterOneFailure] afterOneFailure
      ⟨by decide, by decide⟩
      (List.Chain.cons
        ⟨⟨rfl, [], [], "connection lost", rfl, by simp only [FirstFailure, Reaches]; decide⟩,
          1 * second, by decide⟩
        List.Chain.nil)
      rfl
      ⟨rfl, rfl, [], [], rfl, ⟨created, rfl, rfl⟩, rfl⟩).2.2 2 cancelledAfterAccept none
      (by decide)⟩

/-- C4: from the backoff that NewStatsPusher configures, the delays of
consecutive turns of eventLoop whose pass fails at its first scan are one second
first, then double up to the cap of five minutes: each is at most the next,
strictly below the next while below five minutes, and within one second and
five minutes. -/
theorem backoff_delays_grow_to_the_maximum (w : World) (n : Nat) (eq : StatsPusher)
    (ds : List Nat)
    (hconf : eq.backoffSleeper = (NewStatsPusher []).backoffSleeper)
    (hrun : consecutiveDelays w n eq = some ds) :
    ds.length = n ∧
    (∀ d, ds[0]? = some d → d = 1 * second) ∧
    (∀ i d, ds[i]? = some d → d = min (second * 2 ^ i) (5 * minute)) ∧
    (∀ i d d', ds[i]? = some d → ds[i + 1]? = some d' →
      d ≤ d' ∧ (d < 5 * minute → d < d')) ∧
    (∀ d ∈ ds, 1 * second ≤ d ∧ d ≤ 5 * minute) := by
  obtain ⟨hlen, hget⟩ := consecutiveDelays_eq w n eq ds hrun
  have hformula : ∀ i d, ds[i]? = some d → d = min (second * 2 ^ i) (5 * minute) := by
    intro i d hi
    rw [hget i d hi, hconf, ← forAttempt_configured]
    simp [NewStatsPusher]
  refine ⟨hlen, ?_, hformula, ?_, ?_⟩
  · intro d hd
    rw [hformula 0 d hd]
    simp [second, minute]
  · intro i d d' hi hi'
    rw [hformula i d hi, hformula (i + 1) d' hi']
    exact ⟨(configured_delay_bounds i).2.2.1, (configured_delay_bounds i).2.2.2⟩
  · intro d hd
    obtain ⟨i, hi⟩ := List.getElem?_of_mem hd
    rw [hformula i d hi]
    exact ⟨(configured_delay_bounds i).1, (configured_delay_bounds i).2.1⟩

/-- C4, witness: three failed passes against a collector that is down wait one,
two and four seconds. -/
theorem backoff_delays_grow_to_the_maximum_witness :
    [1 * second, 2 * second, 4 * second].length = 3 ∧
    (∀ d, [1 * second, 2 * second, 4 * second][0]? = some d → d = 1 * second) ∧
    (∀ i d, [1 * second, 2 * second, 4 * second][i]? = some d →
      d = min (second * 2 ^ i) (5 * minute)) ∧
    (∀ i d d', [1 * second, 2 * second, 4 * second][i]? = some d →
      [1 * second, 2 * second, 4 * second][i + 1]? = some d' →
      d ≤ d' ∧ (d < 5 * minute → d < d')) ∧
    (∀ d ∈ [1 * second, 2 * second, 4 * second], 1 * second ≤ d ∧ d ≤ 5 * minute) :=
  backoff_delays_grow_to_the_maximum worldDown 3 (NewStatsPusher [eventA])
    [1 * second, 2 * second, 4 * second] rfl (by decide)

/-- C5: when the timer wins the wait of pollEvents, a scan that returns nil
makes pollEvents reset the backoff and wait again, so that the delay taken when
this pass later fails is the minimum; a scan that returns an error makes
pollEvents return with the backoff as it was, so that the delay taken is that
of the current attempt; a scan that reads the empty table returns nil, and a
scan whose query fails returns that error. -/
theorem successful_scan_resets_backoff (w : World) (fuel : Nat) (eq : StatsPusher)
    (htick : w.Done eq.log = false)
    (hminmax : eq.backoffSleeper.Min ≤ eq.backoffSleeper.Max) :
    (∀ eq1, scan w (eq.record (Action.After eq.Period)) = (eq1, none) →
      pollEvents w (fuel + 1) eq
        = pollEvents w fuel { eq1 with backoffSleeper := eq1.backoffSleeper.Reset } ∧
      eq1.backoffSleeper.Reset.Duration.1 = eq.backoffSleeper.Min ∧
      ∀ d next, eventLoopTurn w (fuel + 1) eq = some (Turn.continued d next) →
        d = eq.backoffSleeper.Min) ∧
    (∀ eq1 err, scan w (eq.record (Action.After eq.Period)) = (eq1, some err) →
      pollEvents w (fuel + 1) eq = some (eq1, some err) ∧
      eq1.backoffSleeper = eq.backoffSleeper ∧
      ∀ d next, eventLoopTurn w (fuel + 1) eq = some (Turn.continued d next) →
        d = eq.backoffSleeper.ForAttempt eq.backoffSleeper.attempt) ∧
    ((scanStart w eq).queue = [] → w.Find (scanStart w eq).log = none →
      (scan w (eq.record (Action.After eq.Period))).2 = none) ∧
    (∀ err, w.Find (scanStart w eq).log = some err →
      scan w (eq.record (Action.After eq.Period)) = (scanStart w eq, some err)) := by
  obtain ⟨-, -, -, -, -, -, -, -, hb, -⟩ :=
    scan_effects w (eq.record (Action.After eq.Period))
  have hmin : ∀ b : Backoff, b.Min ≤ b.Max → b.Reset.Duration.1 = b.Min := by
    intro b hb
    simp [Backoff.Reset, Backoff.Duration, Backoff.ForAttempt, hb]
  refine ⟨?_, ?_, ?_, ?_⟩
  · intro eq1 hscan
    rw [hscan] at hb
    simp only [StatsPusher.record] at hb
    have hstep := pollEvents_scan_nil w fuel eq eq1 htick hscan
    refine ⟨hstep, by rw [hb]; exact hmin _ hminmax, ?_⟩
    intro d next hturn
    simp only [eventLoopTurn, hstep] at hturn
    cases hp : pollEvents w fuel { eq1 with backoffSleeper := eq1.backoffSleeper.Reset } with
    | none => simp [hp] at hturn
    | some res =>
      obtain ⟨eq2, r⟩ := res
      have hback := pollEvents_backoff w fuel _ eq2 r hp
      simp only [Backoff.Reset, or_self] at hback
      cases r with
      | none => simp [hp] at hturn
      | some err =>
        simp only [hp] at hturn
        by_cases hd : w.Done eq2.log = true
        · simp [hd] at hturn
        · have hd : w.Done eq2.log = false := by simpa using hd
          simp only [hd, Bool.false_eq_true, if_false, Option.some.injEq,
            Turn.continued.injEq] at hturn
          rw [← hturn.1, hback, hb]
          exact hmin _ hminmax
  · intro eq1 err hscan
    rw [hscan] at hb
    simp only [StatsPusher.record] at hb
    have hstep := pollEvents_scan_err w fuel eq eq1 err htick hscan
    refine ⟨hstep, hb, ?_⟩
    intro d next hturn
    simp only [eventLoopTurn, hstep] at hturn
    by_cases hd : w.Done eq1.log = true
    · simp [hd] at hturn
    · have hd : w.Done eq1.log = false := by simpa using hd
      simp only [hd, Bool.false_eq_true, if_false, Option.some.injEq,
        Turn.continued.injEq] at hturn
      rw [← hturn.1, hb]
      rfl
  · intro hq hfind
    rw [scan_find_ok w _ hfind]
    have hq1 : (arrived w (eq.record (Action.After eq.Period))).queue = [] := hq
    rw [hq1]
    rfl
  · intro err hfind
    exact scan_find_err w _ err hfind

/-- C5, witness: after one failed pass the attempt counter is 1.  Where the scan
of the next pass succeeds, a new event arrives and fails, the delay taken is
back to one second; where the scan deletes A and fails at B, the backoff is as
it was and the delay taken is two seconds.  Reading the empty table returns
nil; a query that fails makes the scan return its error. -/
theorem successful_scan_resets_backoff_witness :
    (afterOneFailure.backoffSleeper.attempt = 1 ∧
      scan worldArrival (afterOneFailure.record (Action.After afterOneFailure.Period))
        = (acceptedAfterRetry, none) ∧
      eventLoopTurn worldArrival 2 afterOneFailure
        = some (Turn.continued (1 * second) waitingAfterArrival) ∧
      1 * second = afterOneFailure.backoffSleeper.Min) ∧
    (afterOneFailureAB.backoffSleeper.attempt = 1 ∧
      pollEvents worldArrival 1 afterOneFailureAB
        = some (stoppedAtBAgain, some "connection lost") ∧
      stoppedAtBAgain.backoffSleeper = afterOneFailureAB.backoffSleeper ∧
      eventLoopTurn worldArrival 1 afterOneFailureAB
        = some (Turn.continued (2 * second) waitingTwoSeconds) ∧
      2 * second = afterOneFailureAB.backoffSleeper.ForAttempt
        afterOneFailureAB.backoffSleeper.attempt) ∧
    (scan worldDown ((NewStatsPusher []).record (Action.After (NewStatsPusher []).Period))).2
      = none ∧
    scan worldFindFails (acceptedAfterRetry.record (Action.After acceptedAfterRetry.Period))
      = (scanStart worldFindFails acceptedAfterRetry, some "sql: database is closed") :=
  ⟨⟨rfl, by decide, by decide,
      ((successful_scan_resets_backoff worldArrival 1 afterOneFailure rfl (by decide)).1
        acceptedAfterRetry (by decide)).2.2 (1 * second) waitingAfterArrival (by decide)⟩,
    ⟨rfl,
      ((successful_scan_resets_backoff worldArrival 0 afterOneFailureAB rfl (by decide)).2.1
        stoppedAtBAgain "connection lost" (by decide)).1,
      ((successful_scan_resets_backoff worldArrival 0 afterOneFailureAB rfl (by decide)).2.1
        stoppedAtBAgain "connection lost" (by decide)).2.1,
      by decide,
      ((successful_scan_resets_backoff worldArrival 0 afterOneFailureAB rfl (by decide)).2.1
        stoppedAtBAgain "connection lost" (by decide)).2.2 (2 * second) waitingTwoSeconds
        (by decide)⟩,
    (successful_scan_resets_backoff worldDown 0 (NewStatsPusher []) rfl (by decide)).2.2.1
      rfl rfl,
    (successful_scan_resets_backoff worldFindFails 0 acceptedAfterRetry rfl (by decide)).2.2.2
      "sql: database is closed" rfl⟩

/-- C6: when both scans read the same table `earlier ++ event :: later` with
distinct IDs, a scan in which the response for `event` is not an acceptance and
a scan in which the receive for `event` fails with a transport error leave the
same dispatcher: the events of `earlier` deleted, `event` and `later` queued,
the same calls made; pollEvents returns an error in both, and in both the turn
of eventLoop advances the backoff once and continues from the same state. -/
theorem rejection_aborts_like_transport_error (w w2 : World) (fuel : Nat) (eq : StatsPusher)
    (earlier : List SyncEvent) (event : SyncEvent) (later : List SyncEvent)
    (transportErr : String)
    (hq : (scanStart w eq).queue = earlier ++ event :: later)
    (hid : ((scanStart w eq).queue.map SyncEvent.ID).Nodup)
    (hsame : scanStart w2 eq = scanStart w eq)
    (htick : w.Done eq.log = false) (htick2 : w2.Done eq.log = false)
    (hfind : w.Find (scanStart w eq).log = none)
    (hfind2 : w2.Find (scanStart w2 eq).log = none)
    (hrej : RejectedAfter w (scanStart w eq) earlier event)
    (hdrop : ReceiveFailsAfter w2 (scanStart w2 eq) earlier event transportErr) :
    ∃ eq1 err next,
      pollEvents w (fuel + 1) eq = some (eq1, some err) ∧
      pollEvents w2 (fuel + 1) eq = some (eq1, some transportErr) ∧
      eq1.queue = event :: later ∧
      eq1.log = eq.log ++ Action.After eq.Period ::
        (syncedCalls earlier ++ [Action.Send event.Body, Action.Receive]) ∧
      next.queue = event :: later ∧
      next.backoffSleeper.attempt = eq.backoffSleeper.attempt + 1 ∧
      (w.Done eq1.log = false →
        eventLoopTurn w (fuel + 1) eq = some (Turn.continued
          (eq.backoffSleeper.ForAttempt eq.backoffSleeper.attempt) next)) ∧
      (w2.Done eq1.log = false →
        eventLoopTurn w2 (fuel + 1) eq = some (Turn.continued
          (eq.backoffSleeper.ForAttempt eq.backoffSleeper.attempt) next)) := by
  have hq2 : (scanStart w2 eq).queue = earlier ++ event :: later := by rw [hsame]; exact hq
  have hid2 : ((scanStart w2 eq).queue.map SyncEvent.ID).Nodup := by rw [hsame]; exact hid
  obtain ⟨hR, -⟩ := forEachEvent_reaches w _ earlier _ hrej
  obtain ⟨err, hsync⟩ := syncEvent_rejected w _ event hR
  obtain ⟨hF, -⟩ := forEachEvent_reaches w2 _ earlier _ hdrop
  have hsync2 := syncEvent_receiveFails w2 _ event transportErr hF
  have hscan := scan_stops w _ (eq.record (Action.After eq.Period)) earlier event later err
    hfind hq hid hrej hsync
  have hscan2 := scan_stops w2 _ (eq.record (Action.After eq.Period)) earlier event later
    transportErr hfind2 hq2 hid2 hdrop hsync2
  have hsame' : arrived w2 (eq.record (Action.After eq.Period))
      = arrived w (eq.record (Action.After eq.Period)) := hsame
  rw [hsame'] at hscan2
  have hp := pollEvents_scan_err w fuel eq _ err htick hscan
  have hp2 := pollEvents_scan_err w2 fuel eq _ transportErr htick2 hscan2
  have hturn := eventLoopTurn_err w (fuel + 1) eq _ err hp
  have hturn2 := eventLoopTurn_err w2 (fuel + 1) eq _ transportErr hp2
  refine ⟨_, err,
    { arrived w (eq.record (Action.After eq.Period)) with
      queue := event :: later
      backoffSleeper := { eq.backoffSleeper with attempt := eq.backoffSleeper.attempt + 1 }
      log := eq.log ++ Action.After eq.Period ::
        (syncedCalls earlier ++ [Action.Send event.Body, Action.Receive]) ++
        [Action.After (eq.backoffSleeper.ForAttempt eq.backoffSleeper.attempt)] },
    hp, hp2, rfl, by simp [StatsPusher.record], rfl, rfl, ?_, ?_⟩
  · intro hd
    rw [hturn]
    simp only [hd, Bool.false_eq_true, if_false]
    simp [StatsPusher.record, Backoff.Duration, arrived, StatsPusher.enqueue]
  · intro hd
    rw [hturn2]
    simp only [hd, Bool.false_eq_true, if_false]
    simp [StatsPusher.record, Backoff.Duration, arrived, StatsPusher.enqueue]

/-- C6, witness: A, B, C queued; B answered with status 400 by one collector,
B's receive failing at the other. -/
theorem rejection_aborts_like_transport_error_witness :
    ∃ eq1 err next,
      pollEvents worldRejects 1 (NewStatsPusher [eventA, eventB, eventC])
        = some (eq1, some err) ∧
      pollEvents worldOnlyA 1 (NewStatsPusher [eventA, eventB, eventC])
        = some (eq1, some "connection lost") ∧
      eq1.queue = [eventB, eventC] ∧
      eq1.log = [] ++ Action.After (5 * second) ::
        (syncedCalls [eventA] ++ [Action.Send "B", Action.Receive]) ∧
      next.queue = [eventB, eventC] ∧
      next.backoffSleeper.attempt = 0 + 1 ∧
      (worldRejects.Done eq1.log = false →
        eventLoopTurn worldRejects 1 (NewStatsPusher [eventA, eventB, eventC])
          = some (Turn.continued ((NewStatsPusher [eventA, eventB, eventC]).backoffSleeper.ForAttempt
              0) next)) ∧
      (worldOnlyA.Done eq1.log = false →
        eventLoopTurn worldOnlyA 1 (NewStatsPusher [eventA, eventB, eventC])
          = some (Turn.continued ((NewStatsPusher [eventA, eventB, eventC]).backoffSleeper.ForAttempt
              0) next)) :=
  rejection_aborts_like_transport_error worldRejects worldOnlyA 0
    (NewStatsPusher [eventA, eventB, eventC]) [eventA] eventB [eventC] "connection lost"
    rfl (by decide) rfl rfl rfl rfl rfl
    ⟨by decide, badRequest, rfl, by
      rw [show worldRejects.Unmarshal badRequest = Except.ok (some 400) from rfl]
      simp⟩
    ⟨by decide, rfl⟩

/-- C7: pollEvents returns nil only right after cancellation has won its wait;
eventLoop returns only right after cancellation has won a wait, whatever errors
occurred before, and nothing is issued after that wait; when cancellation wins
the wait both return at once; after a failed pass eventLoop returns if
cancellation wins the backoff wait and otherwise goes on with the next turn. -/
theorem eventLoop_returns_only_on_cancellation (w : World) :
    (∀ fuel eq eq1, pollEvents w fuel eq = some (eq1, none) →
      ∃ pre, eq1.log = eq.log ++ pre ++ [Action.Done] ∧ Action.Done ∉ pre ∧
        w.Done (eq.log ++ pre) = true) ∧
    (∀ fuel turns eq eq1, eventLoop w fuel turns eq = some eq1 →
      ∃ pre, eq1.log = eq.log ++ pre ++ [Action.Done] ∧ Action.Done ∉ pre ∧
        w.Done (eq.log ++ pre) = true) ∧
    (∀ fuel turns eq, w.Done eq.log = true →
      pollEvents w (fuel + 1) eq = some (eq.record Action.Done, none) ∧
      eventLoop w (fuel + 1) (turns + 1) eq = some (eq.record Action.Done)) ∧
    (∀ fuel turns eq eq1 err, pollEvents w fuel eq = some (eq1, some err) →
      (w.Done eq1.log = true →
        eventLoop w fuel (turns + 1) eq = some
          ({ eq1 with backoffSleeper := eq1.backoffSleeper.Duration.2 }.record Action.Done)) ∧
      (w.Done eq1.log = false →
        eventLoop w fuel (turns + 1) eq = eventLoop w fuel turns
          ({ eq1 with backoffSleeper := eq1.backoffSleeper.Duration.2 }.record
            (Action.After eq1.backoffSleeper.Duration.1)))) := by
  refine ⟨?_, ?_, ?_, ?_⟩
  · intro fuel eq eq1 h
    obtain ⟨new, hlog, -, -, -, -, -, hnil, -⟩ := pollEvents_effects w fuel eq eq1 none h
    obtain ⟨pre, hnew, hnd, hdone⟩ := hnil rfl
    exact ⟨pre, by rw [hlog, hnew, List.append_assoc], hnd, hdone⟩
  · intro fuel turns eq eq1 h
    exact eventLoop_effects w fuel turns eq eq1 h
  · intro fuel turns eq hd
    have hp := pollEvents_done w fuel eq hd
    refine ⟨hp, ?_⟩
    rw [eventLoop_succ]
    simp only [eventLoopTurn, hp]
  · intro fuel turns eq eq1 err hp
    refine ⟨?_, ?_⟩
    · intro hd
      rw [eventLoop_succ, eventLoopTurn_err w fuel eq eq1 err hp]
      simp only [hd, if_true]
    · intro hd
      rw [eventLoop_succ, eventLoopTurn_err w fuel eq eq1 err hp]
      simp only [hd, Bool.false_eq_true, if_false]

/-- C7, a run: the collector is down and the context is cancelled during the
first pass; eventLoop returns from the backoff wait, with nothing issued after
the cancellation. -/
theorem eventLoop_returns_only_on_cancellation_witness :
    (eventLoop worldDownThenCancelled 1 1 (NewStatsPusher [eventA])).map
      (fun eq1 => (eq1.queue, eq1.log))
      = some ([eventA],
        [Action.After (5 * second), Action.Send "A", Action.Receive, Action.Done]) ∧
    ∃ pre, [Action.After (5 * second), Action.Send "A", Action.Receive, Action.Done]
        = [] ++ pre ++ [Action.Done] ∧ Action.Done ∉ pre ∧
      worldDownThenCancelled.Done ([] ++ pre) = true :=
  ⟨by decide,
    (eventLoop_returns_only_on_cancellation worldDownThenCancelled).2.1 1 1
      (NewStatsPusher [eventA])
      { queue := [eventA]
        nextID := 2
        Period := 5 * second
        cancel := false
        backoffSleeper := { attempt := 1, Min := 1 * second, Max := 5 * minute }
        log := [Action.After (5 * second), Action.Send "A", Action.Receive, Action.Done] }
      (by decide)⟩

/-- C8: for a write on table job_runs that holds a job run and has no error
yet, createSyncEvent either fails to serialise, and then records that error on
the write and saves nothing, or saves exactly one SyncEvent whose body is the
serialised presenter and records the error of the save, if any, on the write. -/
theorem createSyncEvent_saves_or_fails_the_write (c : Capture) (scope : Scope) (run : JobRun)
    (herr : scope.HasError = false) (htable : scope.TableName = "job_runs")
    (hvalue : scope.Value = ScopeValue.JobRun run) :
    (∀ err, c.Marshal run = Except.error err →
      createSyncEvent c scope = { scope with Error := some err }) ∧
    (∀ body, c.Marshal run = Except.ok body →
      (createSyncEvent c scope).saves = scope.saves ++ [{ ID := 0, Body := body }] ∧
      (createSyncEvent c scope).Error = c.Save scope.saves { ID := 0, Body := body } ∧
      (createSyncEvent c scope).TableName = scope.TableName ∧
      (createSyncEvent c scope).Value = scope.Value) := by
  have hnone : scope.Error = none := by
    cases h : scope.Error with
    | none => rfl
    | some e => simp [Scope.HasError, h] at herr
  refine ⟨?_, ?_⟩
  · intro err hm
    simp [createSyncEvent, herr, htable, hvalue, hm, Scope.Err, hnone]
  · intro body hm
    simp only [createSyncEvent, herr, htable, hvalue, hm, Bool.false_eq_true, if_false, if_true]
    cases hs : c.Save scope.saves { ID := 0, Body := body } with
    | none => simp [Scope.Err, hnone]
    | some e => simp [Scope.Err, hnone]

/-- C8, witness: a job run that cannot be serialised fails its write and saves
nothing; one that can be is saved once. -/
theorem createSyncEvent_saves_or_fails_the_write_witness :
    createSyncEvent captureUnlessBroken (jobRunScope "broken")
      = { jobRunScope "broken" with Error := some "json: unsupported value" } ∧
    (createSyncEvent captureUnlessBroken (jobRunScope "run-1")).saves
      = [] ++ [{ ID := 0, Body := "run-1" }] :=
  ⟨(createSyncEvent_saves_or_fails_the_write captureUnlessBroken (jobRunScope "broken")
      { ID := "broken" } rfl rfl rfl).1 "json: unsupported value" rfl,
    ((createSyncEvent_saves_or_fails_the_write captureUnlessBroken (jobRunScope "run-1")
      { ID := "run-1" } rfl rfl rfl).2 "run-1" rfl).1⟩

/-- C9: when the transport's Start fails, Start returns that error having done
nothing else: the cancel function, the context and the goroutine are as
before; when the transport starts, Start sets the cancel function, launches the
loop at its first wait and returns nil; it returns nil only in that case. -/
theorem Start_returns_transport_error (w : World) (p : Process) :
    (∀ err, w.Start p.eq.log = some err →
      Start w p = ({ p with eq := p.eq.record Action.Start }, some err) ∧
      (Start w p).1.eq.cancel = p.eq.cancel ∧ (Start w p).1.loop = p.loop) ∧
    (w.Start p.eq.log = none →
      (Start w p).2 = none ∧ (Start w p).1.eq.cancel = true ∧
      (Start w p).1.loop = some Loop.pollWait ∧ (Start w p).1.ctxDone = false ∧
      (Start w p).1.eq.log = p.eq.log ++ [Action.Start]) ∧
    ((Start w p).2 = none ↔ w.Start p.eq.log = none) := by
  cases h : w.Start p.eq.log with
  | none => simp [Start, h, StatsPusher.record]
  | some e => simp [Start, h, StatsPusher.record]

/-- C9, a run: against a collector that cannot be reached Start returns the
error, with no cancel function and no goroutine; against one that can, the
cancel function is set and the goroutine stands at its first wait. -/
theorem Start_returns_transport_error_witness :
    (Start worldUnreachable freshProcess
        = ({ freshProcess with eq := freshProcess.eq.record Action.Start },
          some "dial tcp: connection refused") ∧
      (Start worldUnreachable freshProcess).1.eq.cancel = false ∧
      (Start worldUnreachable freshProcess).1.loop = none) ∧
    ((Start worldUntilClosed freshProcess).2 = none ∧
      (Start worldUntilClosed freshProcess).1.eq.cancel = true ∧
      (Start worldUntilClosed freshProcess).1.loop = some Loop.pollWait) :=
  ⟨(Start_returns_transport_error worldUnreachable freshProcess).1
      "dial tcp: connection refused" rfl,
    ((Start_returns_transport_error worldUntilClosed freshProcess).2.1 rfl).1,
    ((Start_returns_transport_error worldUntilClosed freshProcess).2.1 rfl).2.1,
    ((Start_returns_transport_error worldUntilClosed freshProcess).2.1 rfl).2.2.1⟩

/-- C10, as stated, fails: with A and B queued and the loop inside a scan, Close
returns while the goroutine is still scanning, and B is sent and its response
awaited after Close has returned. -/
theorem close_returns_while_scan_in_progress :
    (runSchedule worldUntilClosed [Sched.loop true, Sched.loop true, Sched.close]
      (Start worldUntilClosed freshProcess).1).loop = some (Loop.scanning [eventB]) ∧
    (runSchedule worldUntilClosed
      [Sched.loop true, Sched.loop true, Sched.close, Sched.loop true]
      (Start worldUntilClosed freshProcess).1).eq.log
      = [Action.Start, Action.After (5 * second),
          Action.Send "A", Action.Receive, Action.Delete 1,
          Action.Cancel, Action.Remove createCallbackName, Action.Remove updateCallbackName,
          Action.Close,
          Action.Send "B", Action.Receive] := by
  decide

/-- C10, amended: Close cancels the context when the cancel function is set,
removes both callbacks, closes the transport and returns the transport's error
whether or not the cancel function is set, leaving the goroutine where it is; a
goroutine that is at a wait once the context is cancelled can leave it through
cancellation, and then returns having issued nothing else. -/
theorem Close_cancels_without_waiting (w : World) (p : Process) :
    (Close w p).1.loop = p.loop ∧
    (Close w p).1.eq.queue = p.eq.queue ∧
    (Close w p).2 = w.Close (Close w p).1.eq.log.dropLast ∧
    (p.eq.cancel = true →
      (Close w p).1.ctxDone = true ∧
      (Close w p).1.eq.log = p.eq.log ++ [Action.Cancel, Action.Remove createCallbackName,
        Action.Remove updateCallbackName, Action.Close] ∧
      (Close w p).2 = w.Close (p.eq.log ++ [Action.Cancel, Action.Remove createCallbackName,
        Action.Remove updateCallbackName])) ∧
    (p.eq.cancel = false →
      (Close w p).1.ctxDone = p.ctxDone ∧
      (Close w p).1.eq.log = p.eq.log ++ [Action.Remove createCallbackName,
        Action.Remove updateCallbackName, Action.Close] ∧
      (Close w p).2 = w.Close (p.eq.log ++ [Action.Remove createCallbackName,
        Action.Remove updateCallbackName])) ∧
    (∀ q : Process, q.ctxDone = true →
      (q.loop = some Loop.pollWait ∨ ∃ d, q.loop = some (Loop.backoffWait d)) →
      loopStep w false q = { q with eq := q.eq.record Action.Done, loop := some Loop.returned }) := by
  refine ⟨?_, ?_, ?_, ?_, ?_, ?_⟩
  · cases h : p.eq.cancel <;> simp [Close, h, StatsPusher.record]
  · cases h : p.eq.cancel <;> simp [Close, h, StatsPusher.record]
  · cases h : p.eq.cancel
    · simp only [Close, h, StatsPusher.record, Bool.false_eq_true, if_false]
      rw [List.dropLast_concat]
    · simp only [Close, h, StatsPusher.record, if_true]
      rw [List.dropLast_concat]
  · intro h
    simp [Close, h, StatsPusher.record]
  · intro h
    simp [Close, h, StatsPusher.record]
  · intro q hq hloop
    rcases hloop with h | ⟨d, h⟩ <;> simp [loopStep, h, hq]

/-- C10, a run: Close of a dispatcher that was never started, over a transport
whose close fails, returns the transport's error; Close in the middle of the
scan of A, B returns nil and leaves the goroutine in the scan. -/
theorem Close_cancels_without_waiting_witness :
    (Close worldCloseFails freshProcess).2 = some "websocket: close sent" ∧
    (Close worldCloseFails freshProcess).1.ctxDone = false ∧
    (Close worldUntilClosed
      (runSchedule worldUntilClosed [Sched.loop true, Sched.loop true]
        (Start worldUntilClosed freshProcess).1)).2 = none ∧
    (Close worldUntilClosed
      (runSchedule worldUntilClosed [Sched.loop true, Sched.loop true]
        (Start worldUntilClosed freshProcess).1)).1.loop = some (Loop.scanning [eventB]) ∧
    (Close worldUntilClosed
      (runSchedule worldUntilClosed [Sched.loop true, Sched.loop true]
        (Start worldUntilClosed freshProcess).1)).1.ctxDone = true :=
  ⟨((Close_cancels_without_waiting worldCloseFails freshProcess).2.2.2.2.1 rfl).2.2,
    ((Close_cancels_without_waiting worldCloseFails freshProcess).2.2.2.2.1 rfl).1,
    by decide,
    by decide,
    ((Close_cancels_without_waiting worldUntilClosed
      (runSchedule worldUntilClosed [Sched.loop true, Sched.loop true]
        (Start worldUntilClosed freshProcess).1)).2.2.2.1 (by decide)).1⟩

end Synchronization
